import Mathlib

/-!
# Verification of `get-aws-service-endpoints.py`

A shallow embedding of the script `src/get-aws-service-endpoints.py`.

The program is single-threaded and synchronous; its observable behaviour
is the sequence of texts printed on each stream, the SSM API calls it
issues, how often it consults standard input, and its exit code.  We model
a run as a state-passing computation `M α = ProgState → ProgState × Except PyExc α`
over the injected collaborators (`FEnv`): standard input and the SSM
parameter store, each of whose operations may raise.  Python exceptions
are the `Except` layer; printed text and issued API calls accumulate in
`ProgState` and survive a raise, exactly as in the real process.

Python primitives that the source uses (`str.split`, `str.lower`,
`sorted`, negative indexing, dict insertion order, `json.dumps(..., indent=4)`)
are modelled by the executable definitions below, each documented with the
Python construct it stands for.
-/

deriving instance DecidableEq for Except

/-! ## Python string and list primitives -/

/-- Python `str.split(sep)` for a one-character separator, on character
lists: cuts at every occurrence of `sep` and keeps empty segments, so the
empty list splits to `[[]]` (Python: `''.split(sep) == ['']`). -/
def splitCharList (sep : Char) : List Char → List (List Char)
  | [] => [[]]
  | c :: cs =>
    if c = sep then [] :: splitCharList sep cs
    else
      match splitCharList sep cs with
      | [] => [[c]]
      | g :: gs => (c :: g) :: gs

/-- Python `s.split(sep)` for a one-character separator. -/
def pySplit (sep : Char) (s : String) : List String :=
  (splitCharList sep s.data).map (fun g => String.mk g)

/-- Python `str.lower`, character by character (ASCII case mapping; the
source only compares the result against `"y"`). -/
def pyLower (s : String) : String := String.mk (s.data.map Char.toLower)

/-- Code-point comparison of character lists: Python's `<=` on strings. -/
def charListLe : List Char → List Char → Bool
  | [], _ => true
  | _ :: _, [] => false
  | a :: as, b :: bs =>
    if a.toNat < b.toNat then true
    else if b.toNat < a.toNat then false
    else charListLe as bs

/-- Python `<=` on strings (lexicographic by code point). -/
def strLe (a b : String) : Bool := charListLe a.data b.data

/-- Insertion into a `strLe`-sorted list; building block of `pysorted`. -/
def insertSorted (a : String) : List String → List String
  | [] => [a]
  | b :: bs => if strLe a b then a :: b :: bs else b :: insertSorted a bs

/-- Python `sorted(...)` on a list of strings, as an insertion sort with
respect to code-point order (equal strings are identical, so stability
does not alter the result). -/
def pysorted : List String → List String
  | [] => []
  | a :: as => insertSorted a (pysorted as)

/-- Ascending (code-point lexicographic) sortedness as a boolean chain. -/
def strSortedB : List String → Bool
  | [] => true
  | [_] => true
  | a :: b :: t => strLe a b && strSortedB (b :: t)

/-- Python truthiness of an optional string (`if arguments.x:` where the
attribute is `None` when the flag is absent): `None` and `''` are falsy. -/
def pyTruthy : Option String → Bool
  | none => false
  | some s => s != ""

/-- Python truthiness of an optional list (`if region_overrides:`):
`None` and `[]` are falsy. -/
def pyTruthyList {α : Type} : Option (List α) → Bool
  | none => false
  | some [] => false
  | some (_ :: _) => true

/-- Python `xs[-2]` on a list of length at least 2 (the only way the
source uses negative indexing): the second-to-last element. -/
def secondToLast (l : List String) : String := l.getD (l.length - 2) ""

/-- Worker for `chunk10`: `cur` is the current chunk reversed, `room` how
many elements it can still take before reaching 10. -/
def chunk10Go {α : Type} (cur : List α) (room : Nat) : List α → List (List α)
  | [] => [cur.reverse]
  | x :: xs =>
    match room with
    | 0 => cur.reverse :: chunk10Go [x] 9 xs
    | r + 1 => chunk10Go (x :: cur) r xs

/-- The batching of the source's
`for i in range(0, len(parameter_names), 10)` with slices
`parameter_names[i:i + 10]`: consecutive chunks of at most 10 elements,
none for the empty list. -/
def chunk10 {α : Type} : List α → List (List α)
  | [] => []
  | x :: xs => chunk10Go [x] 9 xs

/-! ## Python dict (insertion-ordered) -/

/-- Python `d[k] = v` on a dict with string keys, the dict being an
insertion-ordered association list: an existing key keeps its place, a
new key is appended at the end. -/
def dictSet {β : Type} (d : List (String × β)) (k : String) (v : β) :
    List (String × β) :=
  match d with
  | [] => [(k, v)]
  | (k', v') :: rest => if k' = k then (k, v) :: rest else (k', v') :: dictSet rest k v

/-- Python `d.get(k)`; `k in d` is its `isSome`. -/
def dictGet {β : Type} (d : List (String × β)) (k : String) : Option β :=
  match d with
  | [] => none
  | (k', v') :: rest => if k' = k then some v' else dictGet rest k

/-- The keys of a dict, in insertion order. -/
def keysOf {β : Type} (d : List (String × β)) : List String := d.map Prod.fst

/-- Repeated `dictSet` (used to describe the loop below). -/
def setAll {β : Type} (d : List (String × β)) (ps : List (String × β)) :
    List (String × β) :=
  ps.foldl (fun d p => dictSet d p.1 p.2) d

/-- The keys a Python dict holds after inserting keys `l` in order when it
already holds `seen`: a first occurrence is appended, later ones keep the
existing entry in place. -/
def addNew (seen : List String) : List String → List String
  | [] => seen
  | k :: ks => if seen.contains k then addNew seen ks else addNew (seen ++ [k]) ks

/-- One iteration of the aggregation loop of `generate_output_json`
(source lines 85-89): `if region not in json_data: json_data[region] = {}`
followed by `json_data[region][service] = endpoint`. -/
def buildStep (jd : List (String × List (String × String)))
    (t : String × String × String) : List (String × List (String × String)) :=
  dictSet jd t.1 (dictSet ((dictGet jd t.1).getD []) t.2.1 t.2.2)

/-- The aggregation of source lines 83-89: fold the (region, service,
endpoint) triples into the nested dict `json_data`. -/
def buildJsonData (ts : List (String × String × String)) :
    List (String × List (String × String)) :=
  ts.foldl buildStep []

/-! ## `json.dumps(json_data, indent = 4)` -/

/-- A lower-case hexadecimal digit. -/
def hexDigitChar (n : Nat) : Char := "0123456789abcdef".data.getD n '0'

/-- Four lower-case hexadecimal digits, as in Python's `\uXXXX` escapes. -/
def hex4 (n : Nat) : String :=
  String.mk [hexDigitChar (n / 4096 % 16), hexDigitChar (n / 256 % 16),
             hexDigitChar (n / 16 % 16), hexDigitChar (n % 16)]

/-- The `json.dumps` escaping of one character (default `ensure_ascii=True`):
the two-character escapes, `\u00xx` for remaining control characters,
`\uxxxx` (with a surrogate pair beyond the BMP) for non-ASCII. -/
def escapeChar (c : Char) : String :=
  if c = '"' then "\\\""
  else if c = '\\' then "\\\\"
  else if c = '\n' then "\\n"
  else if c = '\r' then "\\r"
  else if c = '\t' then "\\t"
  else if c.toNat = 8 then "\\b"
  else if c.toNat = 12 then "\\f"
  else if c.toNat < 32 ∨ c.toNat > 126 then
    if c.toNat < 65536 then "\\u" ++ hex4 c.toNat
    else "\\u" ++ hex4 (55296 + (c.toNat - 65536) / 1024) ++
         "\\u" ++ hex4 (56320 + (c.toNat - 65536) % 1024)
  else String.mk [c]

/-- A JSON string literal as `json.dumps` writes it. -/
def jsonQuote (s : String) : String :=
  "\"" ++ String.join (s.data.map escapeChar) ++ "\""

/-- The rendering `json.dumps(·, indent = 4)` gives the inner
service-to-endpoint object,
rendered at nesting depth 1 (entries at 8 spaces, closing brace at 4). -/
def dumpsInner (d : List (String × String)) : String :=
  match d with
  | [] => "\x7b\x7d"
  | _ :: _ =>
    "\x7b\n" ++
    String.intercalate ",\n"
      (d.map (fun kv => "        " ++ jsonQuote kv.1 ++ ": " ++ jsonQuote kv.2)) ++
    "\n    \x7d"

/-- The serialization `json.dumps(json_data, indent = 4)` of source line
91: the two-level
object with 4-space indentation, keys in insertion order. -/
def dumps (d : List (String × List (String × String))) : String :=
  match d with
  | [] => "\x7b\x7d"
  | _ :: _ =>
    "\x7b\n" ++
    String.intercalate ",\n"
      (d.map (fun kv => "    " ++ jsonQuote kv.1 ++ ": " ++ dumpsInner kv.2)) ++
    "\n\x7d"

/-! ## The run: state, exceptions, environment -/

/-- The exceptions the source distinguishes (lines 254-266): the two
`botocore` failures it catches, `KeyboardInterrupt`, the `SystemExit`
that `exit(1)` in `quit_error` raises, and everything else. -/
inductive PyExc : Type
  | noCredentials (msg : String)
  | clientError (msg : String)
  | keyboardInterrupt
  | systemExit
  | other (msg : String)
deriving DecidableEq

/-- One SSM call: a paginated `get_parameters_by_path` listing (identified
by its `Path`) or one `get_parameters` batch (identified by its `Names`). -/
inductive ApiCall : Type
  | listPath (path : String)
  | getParameters (names : List String)
deriving DecidableEq

/-- Observable state threaded through a run: the texts handed to `print`
on each stream in order (the trailing newline or `end=''` is not recorded,
one entry per call), the SSM calls issued, and how many times `input()`
was consulted. -/
structure ProgState where
  stdout : List String
  stderr : List String
  apiCalls : List ApiCall
  stdinReads : Nat
deriving DecidableEq

/-- The state at process start. -/
def initState : ProgState := ⟨[], [], [], 0⟩

/-- A Python computation: threads the observable state and may raise; what
was printed before a raise stays printed. -/
def M (α : Type) : Type := ProgState → ProgState × Except PyExc α

def M.pure {α : Type} (a : α) : M α := fun s => (s, Except.ok a)

def M.bind {α β : Type} (x : M α) (f : α → M β) : M β := fun s =>
  match x s with
  | (s', Except.ok a) => f a s'
  | (s', Except.error e) => (s', Except.error e)

instance : Monad M where
  pure := M.pure
  bind := M.bind

/-- Python `print(msg)` with no `file=` argument: standard output. -/
def printOut (msg : String) : M Unit :=
  fun s => ({ s with stdout := s.stdout ++ [msg] }, Except.ok ())

/-- Python `print(msg, file = sys.stderr)`. -/
def printErr (msg : String) : M Unit :=
  fun s => ({ s with stderr := s.stderr ++ [msg] }, Except.ok ())

/-- Raising a Python exception. -/
def raise {α : Type} (e : PyExc) : M α := fun s => (s, Except.error e)

/-- The injected collaborators: standard input and the SSM parameter
store.  Each operation may raise (missing credentials, a client error
once the SDK's retries are exhausted, an interrupt).  `regionValues` and
`serviceValues` hold the concatenated `Parameters` values over all pages
of the respective `get_parameters_by_path` pagination. -/
structure FEnv where
  stdin : Except PyExc String
  regionValues : Except PyExc (List String)
  serviceValues : String → Except PyExc (List String)
  getParameters : List String → Except PyExc (List (String × String))

/-- Python `input()`. -/
def readLine (env : FEnv) : M String :=
  fun s => ({ s with stdinReads := s.stdinReads + 1 }, env.stdin)

/-- The `Path` of the region listing (source line 114). -/
def regionsPath : String := "/aws/service/global-infrastructure/regions"

/-- The `Path` of one region's service listing (source line 148). -/
def servicesPath (region : String) : String :=
  "/aws/service/global-infrastructure/regions/" ++ region ++ "/services"

/-- The full region pagination (source lines 112-120, without the filter). -/
def listRegionsCall (env : FEnv) : M (List String) :=
  fun s => ({ s with apiCalls := s.apiCalls ++ [ApiCall.listPath regionsPath] },
            env.regionValues)

/-- The full service pagination for one region (source lines 146-153). -/
def listServicesCall (env : FEnv) (region : String) : M (List String) :=
  fun s => ({ s with apiCalls := s.apiCalls ++ [ApiCall.listPath (servicesPath region)] },
            env.serviceValues region)

/-- One `get_parameters` batch call (source lines 181-183). -/
def getParametersCall (env : FEnv) (names : List String) : M (List (String × String)) :=
  fun s => ({ s with apiCalls := s.apiCalls ++ [ApiCall.getParameters names] },
            env.getParameters names)

/-! ## The source's functions -/

/-- Source lines 226-235: message to standard error, then `exit(1)`,
which raises `SystemExit`. -/
def quit_error {α : Type} (message : String) : M α := do
  printErr message
  raise PyExc.systemExit

def confirmLine1 : String :=
  "This script will retrieve all AWS service endpoints for all services in all regions."

def confirmLine2 : String :=
  "This will make a large number of API calls and may take a long time."

def confirmPrompt : String := "Are you sure you want to continue? (y/n) "

/-- Source lines 14-29.  NOTE: the source's first two `print` calls pass
no `file=` argument and therefore write to standard output; only the
`(y/n)` prompt names `sys.stderr`. -/
def confirm_unfiltered_execution (env : FEnv) : M Unit := do
  printOut confirmLine1
  printOut confirmLine2
  printErr confirmPrompt
  let resp ← readLine env
  if pyLower resp != "y" then quit_error "User aborted program" else pure ()

/-- Source lines 94-124; `region_overrides_arg` is
`arguments.region_overrides` (`none` when the flag is absent). -/
def get_regions (env : FEnv) (region_overrides_arg : Option String) : M (List String) := do
  let region_overrides : Option (List String) :=
    match region_overrides_arg with
    | none => none
    | some s => if s = "" then none else some (pySplit ',' s)
  let regions ←
    if pyTruthyList region_overrides then
      pure (region_overrides.getD [])
    else do
      printErr "Retrieving all AWS regions... "
      let values ← listRegionsCall env
      let regions := values.filter (fun v => v != "global")
      printErr ("found " ++ toString regions.length ++ " regions.")
      pure regions
  pure (pysorted regions)

/-- Source lines 127-157 (note: no `'global'` filter here). -/
def get_region_services (env : FEnv) (service_overrides_arg : Option String)
    (region : String) : M (List String) := do
  let service_overrides : Option (List String) :=
    match service_overrides_arg with
    | none => none
    | some s => if s = "" then none else some (pySplit ',' s)
  let region_services ←
    if pyTruthyList service_overrides then
      pure (service_overrides.getD [])
    else do
      printErr ("Retrieving all services in " ++ region ++ "... ")
      let values ← listServicesCall env region
      printErr ("found " ++ toString values.length ++ " services.")
      pure values
  pure (pysorted region_services)

/-- The f-string of source line 174. -/
def parameterName (region service : String) : String :=
  "/aws/service/global-infrastructure/regions/" ++ region ++ "/services/" ++
    service ++ "/endpoint"

/-- One iteration of the batch loop, source lines 180-189: the batch call,
the `'.'` progress marker, then one triple per returned parameter with the
service name derived as `parameter['Name'].split('/')[-2]`. -/
def batchStep (env : FEnv) (region : String)
    (acc : List (String × String × String)) (batch : List String) :
    M (List (String × String × String)) := do
  let batch_response ← getParametersCall env batch
  printErr "."
  pure (acc ++ batch_response.map (fun p => (region, secondToLast (pySplit '/' p.1), p.2)))

/-- Source lines 160-191. -/
def get_service_endpoints (env : FEnv) (region : String) (services : List String) :
    M (List (String × String × String)) := do
  let parameter_names := services.map (fun service => parameterName region service)
  List.foldlM (batchStep env region) [] (chunk10 parameter_names)

/-- One iteration of the region loop, source lines 63-81. -/
def regionStep (env : FEnv) (service_overrides_arg : Option String)
    (acc : List (String × String × String)) (region : String) :
    M (List (String × String × String)) := do
  let region_services ← get_region_services env service_overrides_arg region
  if !(pyTruthy service_overrides_arg) then
    printErr ("Retrieving endpoints for " ++ region ++ "...")
  else
    printErr ("Retrieving endpoint(s) for " ++ String.intercalate ", " region_services ++
              " in " ++ region ++ "...")
  let endpoints ← get_service_endpoints env region region_services
  printErr " done."
  pure (acc ++ endpoints)

/-- Source lines 51-91: resolve regions, loop over them accumulating the
triples, aggregate into `json_data`, serialize with `indent = 4`. -/
def generate_output_json (env : FEnv)
    (region_overrides_arg service_overrides_arg : Option String) : M String := do
  let regions ← get_regions env region_overrides_arg
  let region_service_endpoints ←
    List.foldlM (regionStep env service_overrides_arg) [] regions
  pure (dumps (buildJsonData region_service_endpoints))

/-- The source's `main`, lines 238-251 (named `pyMain` here only because
`main` is reserved). -/
def pyMain (env : FEnv) (region_overrides_arg service_overrides_arg : Option String) :
    M Unit := do
  if !(pyTruthy region_overrides_arg) && !(pyTruthy service_overrides_arg) then
    confirm_unfiltered_execution env
  let output_json ← generate_output_json env region_overrides_arg service_overrides_arg
  printOut output_json

/-- One line standing for Python's default report of an exception nobody
catches (the interpreter's traceback, printed to standard error). -/
def defaultTraceback (msg : String) : String :=
  "Traceback (most recent call last): " ++ msg

/-- The `__main__` dispatch of source lines 254-266: run `main`, map each
escaping exception to its handler.  `SystemExit` (from `exit(1)` inside
`quit_error`, whose message is already on standard error) matches none of
the three handlers and ends the process with code 1; any other uncaught
exception ends it with the default traceback and a non-zero code. -/
def runProgram (env : FEnv) (region_overrides_arg service_overrides_arg : Option String) :
    ProgState × Nat :=
  match pyMain env region_overrides_arg service_overrides_arg initState with
  | (s, Except.ok _) => (s, 0)
  | (s, Except.error (PyExc.noCredentials msg)) =>
      ({ s with stderr := s.stderr ++ [msg] }, 1)
  | (s, Except.error (PyExc.clientError msg)) =>
      ({ s with stderr := s.stderr ++ [msg] }, 1)
  | (s, Except.error PyExc.keyboardInterrupt) =>
      ({ s with stderr := s.stderr ++ ["User interrupted program"] }, 1)
  | (s, Except.error PyExc.systemExit) => (s, 1)
  | (s, Except.error (PyExc.other msg)) =>
      ({ s with stderr := s.stderr ++ [defaultTraceback msg] }, 1)

/-! ## Fault-free environments and the values the run computes on them -/

/-- The SSM `GetParameters` contract assumed of the real service: the
response holds exactly the requested names that exist in the store, in
request order, each paired with its value (names that do not exist go to
`InvalidParameters` and yield nothing). -/
def ssmGetParameters (params : String → Option String) (names : List String) :
    List (String × String) :=
  names.filterMap (fun n => (params n).map (fun v => (n, v)))

/-- A concrete parameter-store content: the region listing's values, each
region's service listing's values, and the parameter map consulted by
`get_parameters`. -/
structure Env where
  regionValues : List String
  serviceValues : String → List String
  params : String → Option String

/-- The fault-free environment over a store `env`, with `stdin` the line
`input()` returns. -/
def okFEnv (env : Env) (stdin : String) : FEnv where
  stdin := Except.ok stdin
  regionValues := Except.ok env.regionValues
  serviceValues := fun r => Except.ok (env.serviceValues r)
  getParameters := fun names => Except.ok (ssmGetParameters env.params names)

/-- The region list `get_regions` returns on a fault-free environment. -/
def regionsOf (env : Env) (ro : Option String) : List String :=
  match ro with
  | some s =>
    if s = "" then pysorted (env.regionValues.filter (fun v => v != "global"))
    else pysorted (pySplit ',' s)
  | none => pysorted (env.regionValues.filter (fun v => v != "global"))

/-- The service list `get_region_services` returns on a fault-free
environment. -/
def servicesOf (env : Env) (so : Option String) (region : String) : List String :=
  match so with
  | some s =>
    if s = "" then pysorted (env.serviceValues region)
    else pysorted (pySplit ',' s)
  | none => pysorted (env.serviceValues region)

/-- The (region, derived service, endpoint) triples `get_service_endpoints`
returns for one region on a fault-free environment. -/
def triplesFor (env : Env) (so : Option String) (region : String) :
    List (String × String × String) :=
  ((servicesOf env so region).map (parameterName region)).filterMap
    (fun n => (env.params n).map (fun v => (region, secondToLast (pySplit '/' n), v)))

/-- All triples of the run, in region order. -/
def allTriples (env : Env) (ro so : Option String) : List (String × String × String) :=
  (regionsOf env ro).flatMap (triplesFor env so)

/-- The services of `region` whose endpoint parameter exists. -/
def servicesWithEndpoint (env : Env) (so : Option String) (region : String) :
    List String :=
  (servicesOf env so region).filter
    (fun s => (env.params (parameterName region s)).isSome)

/-! ## Lemmas: code-point order and `pysorted` -/

theorem charListLe_refl (l : List Char) : charListLe l l = true := by
  induction l with
  | nil => rfl
  | cons a as ih => simp [charListLe, ih]

theorem charListLe_total (a b : List Char) :
    charListLe a b = true ∨ charListLe b a = true := by
  induction a generalizing b with
  | nil => left; rfl
  | cons x xs ih =>
    cases b with
    | nil => right; rfl
    | cons y ys =>
      rcases Nat.lt_trichotomy x.toNat y.toNat with h | h | h
      · left; simp [charListLe, h]
      · rcases ih ys with h' | h' <;> [left; right] <;>
          simp [charListLe, h, h']
      · right; simp [charListLe, h]

theorem charListLe_trans {a b c : List Char} (hab : charListLe a b = true)
    (hbc : charListLe b c = true) : charListLe a c = true := by
  induction a generalizing b c with
  | nil => rfl
  | cons x xs ih =>
    cases b with
    | nil => simp [charListLe] at hab
    | cons y ys =>
      cases c with
      | nil => simp [charListLe] at hbc
      | cons z zs =>
        simp only [charListLe] at hab hbc ⊢
        by_cases h1 : x.toNat < y.toNat
        · by_cases h2 : y.toNat < z.toNat
          · have h : x.toNat < z.toNat := Nat.lt_trans h1 h2
            simp [h]
          · by_cases h3 : z.toNat < y.toNat
            · simp [h2, h3] at hbc
            · have h : x.toNat < z.toNat := by omega
              simp [h]
        · by_cases h1' : y.toNat < x.toNat
          · simp [h1, h1'] at hab
          · by_cases h2 : y.toNat < z.toNat
            · have h : x.toNat < z.toNat := by omega
              simp [h]
            · by_cases h3 : z.toNat < y.toNat
              · simp [h2, h3] at hbc
              · have hxz : ¬ x.toNat < z.toNat := by omega
                have hzx : ¬ z.toNat < x.toNat := by omega
                simp only [h1, h1', h2, h3, if_neg, if_false] at hab hbc
                simp [hxz, hzx]
                exact ih hab hbc

theorem strLe_refl (a : String) : strLe a a = true := charListLe_refl a.data

theorem strLe_total (a b : String) : strLe a b = true ∨ strLe b a = true :=
  charListLe_total a.data b.data

theorem strLe_trans {a b c : String} (hab : strLe a b = true)
    (hbc : strLe b c = true) : strLe a c = true :=
  charListLe_trans hab hbc

theorem strLe_of_not_strLe {a b : String} (h : ¬ strLe a b = true) :
    strLe b a = true := by
  rcases strLe_total a b with h' | h'
  · exact absurd h' h
  · exact h'

theorem mem_insertSorted {x a : String} {l : List String} :
    x ∈ insertSorted a l ↔ x = a ∨ x ∈ l := by
  induction l with
  | nil => simp [insertSorted]
  | cons b bs ih =>
    by_cases h : strLe a b <;> simp [insertSorted, h, ih] <;> tauto

theorem pairwise_insertSorted {a : String} {l : List String}
    (hl : l.Pairwise (fun x y => strLe x y = true)) :
    (insertSorted a l).Pairwise (fun x y => strLe x y = true) := by
  induction l with
  | nil => simp [insertSorted]
  | cons b bs ih =>
    rcases List.pairwise_cons.1 hl with ⟨hb, hbs⟩
    by_cases h : strLe a b = true
    · rw [insertSorted, if_pos h]
      refine List.pairwise_cons.2 ⟨?_, hl⟩
      intro y hy
      rcases List.mem_cons.1 hy with rfl | hy
      · exact h
      · exact strLe_trans h (hb y hy)
    · rw [insertSorted, if_neg h]
      refine List.pairwise_cons.2 ⟨?_, ih hbs⟩
      intro y hy
      rcases mem_insertSorted.1 hy with rfl | hy
      · exact strLe_of_not_strLe h
      · exact hb y hy

theorem pysorted_pairwise (l : List String) :
    (pysorted l).Pairwise (fun x y => strLe x y = true) := by
  induction l with
  | nil => simp [pysorted]
  | cons a as ih => exact pairwise_insertSorted ih

theorem mem_pysorted {x : String} {l : List String} :
    x ∈ pysorted l ↔ x ∈ l := by
  induction l with
  | nil => simp [pysorted]
  | cons a as ih => simp [pysorted, mem_insertSorted, ih]

theorem strSortedB_of_pairwise {l : List String}
    (h : l.Pairwise (fun x y => strLe x y = true)) : strSortedB l = true := by
  induction l with
  | nil => rfl
  | cons a as ih =>
    cases as with
    | nil => rfl
    | cons b bs =>
      rcases List.pairwise_cons.1 h with ⟨ha, htl⟩
      simp [strSortedB, ha b (List.mem_cons_self b bs), ih htl]

theorem strSortedB_pysorted (l : List String) : strSortedB (pysorted l) = true :=
  strSortedB_of_pairwise (pysorted_pairwise l)

/-! ## Lemmas: `str.split` and the service name derived from a path -/

theorem splitCharList_ne_nil (sep : Char) (l : List Char) :
    splitCharList sep l ≠ [] := by
  cases l with
  | nil => simp [splitCharList]
  | cons c cs =>
    rw [splitCharList]
    by_cases h : c = sep
    · simp [h]
    · simp only [h, if_false]
      cases splitCharList sep cs <;> simp

theorem pySplit_ne_nil (sep : Char) (s : String) : pySplit sep s ≠ [] := by
  simp [pySplit, splitCharList_ne_nil]

/-- Splitting cuts cleanly at an explicit separator occurrence. -/
theorem splitCharList_append_sep (sep : Char) (X Y : List Char) :
    splitCharList sep (X ++ sep :: Y) = splitCharList sep X ++ splitCharList sep Y := by
  induction X with
  | nil => simp [splitCharList]
  | cons c cs ih =>
    simp only [List.cons_append, splitCharList, List.append_eq]
    rw [ih]
    by_cases h : c = sep
    · simp [h]
    · simp only [h, if_false]
      rcases hsp : splitCharList sep cs with _ | ⟨g, gs⟩
      · exact absurd hsp (splitCharList_ne_nil sep cs)
      · simp [hsp]

/-- A separator-free list splits to itself alone. -/
theorem splitCharList_no_sep {sep : Char} {l : List Char} (h : sep ∉ l) :
    splitCharList sep l = [l] := by
  induction l with
  | nil => rfl
  | cons c cs ih =>
    have hc : ¬ c = sep := fun e => h (e ▸ List.mem_cons_self c cs)
    have hcs : sep ∉ cs := fun hm => h (List.mem_cons_of_mem c hm)
    rw [splitCharList]
    simp only [hc, if_false, ih hcs]

theorem secondToLast_append_two (L : List String) (a b : String) :
    secondToLast (L ++ [a, b]) = a := by
  have hlen : (L ++ [a, b]).length - 2 = L.length := by simp
  rw [secondToLast, hlen, List.getD_eq_getElem?_getD,
      List.getElem?_append_right (Nat.le_refl _)]
  simp

/-- The character-list shape of a constructed parameter path: a prefix,
a separator, the service, a separator, `endpoint`. -/
theorem parameterName_data (region service : String) :
    (parameterName region service).data =
      ("/aws/service/global-infrastructure/regions/" ++ region ++ "/services").data ++
        '/' :: (service.data ++ '/' :: "endpoint".data) := by
  have e1 : ("/services/" : String).data = "/services".data ++ ['/'] := rfl
  have e2 : ("/endpoint" : String).data = '/' :: "endpoint".data := rfl
  simp only [parameterName, String.data_append, e1, e2, List.append_assoc,
    List.singleton_append, List.cons_append, List.nil_append]

/-- The expression `parameter['Name'].split('/')[-2]` recovers the
service a constructed
path was built from, whenever the service identifier holds no `'/'`. -/
theorem secondToLast_parameterName (region service : String)
    (h : service.data.contains '/' = false) :
    secondToLast (pySplit '/' (parameterName region service)) = service := by
  have hmem : '/' ∉ service.data := by simpa using h
  have hend : ('/' : Char) ∉ "endpoint".data := by decide
  rw [pySplit, parameterName_data, splitCharList_append_sep,
      splitCharList_append_sep, splitCharList_no_sep hmem, splitCharList_no_sep hend]
  rw [show ([service.data] ++ ["endpoint".data]) = [service.data, "endpoint".data] from rfl]
  rw [List.map_append]
  exact secondToLast_append_two _ (String.mk service.data) (String.mk "endpoint".data)

/-! ## Lemmas: batching into chunks of 10 -/

theorem chunk10Go_eq {α : Type} (cur : List α) (room : Nat) (rest : List α) :
    chunk10Go cur room rest = (cur.reverse ++ rest.take room) :: chunk10 (rest.drop room) := by
  induction rest generalizing cur room with
  | nil => simp [chunk10Go, chunk10]
  | cons x xs ih =>
    cases room with
    | zero => simp [chunk10Go, chunk10]
    | succ r =>
      rw [chunk10Go, ih]
      simp [List.append_assoc]

/-- The model is exactly the source's slice loop:
`parameter_names[0:10]`, then the same on `parameter_names[10:]`. -/
theorem chunk10_cons {α : Type} (x : α) (xs : List α) :
    chunk10 (x :: xs) = ((x :: xs).take 10) :: chunk10 ((x :: xs).drop 10) := by
  rw [chunk10, chunk10Go_eq]
  simp

theorem chunk10Go_flatten {α : Type} (cur : List α) (room : Nat) (rest : List α) :
    (chunk10Go cur room rest).flatten = cur.reverse ++ rest := by
  induction rest generalizing cur room with
  | nil => simp [chunk10Go]
  | cons x xs ih =>
    cases room with
    | zero => simp [chunk10Go, ih]
    | succ r => simp [chunk10Go, ih]

/-- The chunks concatenate back to the original list. -/
theorem chunk10_flatten {α : Type} (l : List α) : (chunk10 l).flatten = l := by
  cases l with
  | nil => rfl
  | cons x xs => simp [chunk10, chunk10Go_flatten]

theorem chunk10Go_length_le {α : Type} (cur : List α) (room : Nat) (rest : List α)
    (hinv : cur.length + room = 10) :
    ∀ b ∈ chunk10Go cur room rest, b.length ≤ 10 := by
  induction rest generalizing cur room with
  | nil =>
    intro b hb
    rw [chunk10Go] at hb
    rcases List.mem_singleton.1 hb with rfl
    simp
    omega
  | cons x xs ih =>
    intro b hb
    cases room with
    | zero =>
      rw [chunk10Go] at hb
      rcases List.mem_cons.1 hb with rfl | hb
      · simp; omega
      · exact ih [x] 9 (by simp) b hb
    | succ r =>
      rw [chunk10Go] at hb
      exact ih (x :: cur) r (by simp; omega) b hb

/-- No chunk exceeds the API's ceiling of 10 names. -/
theorem chunk10_length_le {α : Type} (l : List α) :
    ∀ b ∈ chunk10 l, b.length ≤ 10 := by
  cases l with
  | nil => simp [chunk10]
  | cons x xs => exact chunk10Go_length_le [x] 9 xs (by simp)

theorem sub9_add9_div10 (n : Nat) : ((n - 9) + 9) / 10 = n / 10 := by
  rcases le_or_lt 9 n with h | h
  · rw [Nat.sub_add_cancel h]
  · have h9 : n - 9 = 0 := by omega
    rw [h9, Nat.div_eq_of_lt (by norm_num), Nat.div_eq_of_lt (by omega)]

theorem chunk10Go_length {α : Type} (cur : List α) (room : Nat) (rest : List α) :
    (chunk10Go cur room rest).length = 1 + ((rest.length - room) + 9) / 10 := by
  induction rest generalizing cur room with
  | nil =>
    rw [chunk10Go]
    simp [Nat.div_eq_of_lt]
  | cons x xs ih =>
    cases room with
    | zero =>
      rw [chunk10Go]
      simp only [List.length_cons, ih, Nat.sub_zero]
      rw [sub9_add9_div10]
      have : xs.length + 1 + 9 = xs.length + 10 := by omega
      rw [this, Nat.add_div_right _ (by norm_num)]
      omega
    | succ r =>
      rw [chunk10Go, ih]
      have : xs.length + 1 - (r + 1) = xs.length - r := by omega
      rw [List.length_cons, this]

/-- There are exactly `ceil(n / 10)` chunks. -/
theorem chunk10_length {α : Type} (l : List α) :
    (chunk10 l).length = (l.length + 9) / 10 := by
  cases l with
  | nil => simp [chunk10]
  | cons x xs =>
    rw [chunk10, chunk10Go_length, sub9_add9_div10]
    have : xs.length + 1 + 9 = xs.length + 10 := by omega
    rw [List.length_cons, this, Nat.add_div_right _ (by norm_num)]
    omega

/-! ## Lemmas: the insertion-ordered dict -/

theorem dictGet_dictSet_self {β : Type} (d : List (String × β)) (k : String) (v : β) :
    dictGet (dictSet d k v) k = some v := by
  induction d with
  | nil => simp [dictSet, dictGet]
  | cons p rest ih =>
    obtain ⟨k', v'⟩ := p
    by_cases h : k' = k
    · simp [dictSet, dictGet, h]
    · simp [dictSet, dictGet, h, ih]

theorem dictGet_dictSet_ne {β : Type} (d : List (String × β)) {k k' : String}
    (hne : k' ≠ k) (v : β) : dictGet (dictSet d k v) k' = dictGet d k' := by
  have hne' : ¬ k = k' := fun e => hne e.symm
  induction d with
  | nil => simp [dictSet, dictGet, hne']
  | cons p rest ih =>
    obtain ⟨k0, v0⟩ := p
    by_cases h : k0 = k
    · subst h
      simp [dictSet, dictGet, hne']
    · simp only [dictSet, h, if_false]
      by_cases h0 : k0 = k'
      · simp [dictGet, h0]
      · simp [dictGet, h0, ih]

theorem keysOf_dictSet {β : Type} (d : List (String × β)) (k : String) (v : β) :
    keysOf (dictSet d k v) =
      if k ∈ keysOf d then keysOf d else keysOf d ++ [k] := by
  induction d with
  | nil => simp [dictSet, keysOf]
  | cons p rest ih =>
    obtain ⟨k0, v0⟩ := p
    by_cases h : k0 = k
    · subst h
      simp [dictSet, keysOf]
    · have hne : ¬ k = k0 := fun e => h e.symm
      simp only [dictSet, h, if_false, keysOf, List.map_cons] at ih ⊢
      rw [ih]
      by_cases hc : k ∈ List.map Prod.fst rest
      · simp [hc, hne]
      · simp [hc, hne]

theorem mem_dictSet {β : Type} {d : List (String × β)} {k : String} {v : β}
    {p : String × β} (hp : p ∈ dictSet d k v) : p ∈ d ∨ p = (k, v) := by
  induction d with
  | nil => simp [dictSet] at hp; simp [hp]
  | cons q rest ih =>
    obtain ⟨k0, v0⟩ := q
    by_cases h : k0 = k
    · rw [dictSet, if_pos h] at hp
      rcases List.mem_cons.1 hp with rfl | hp
      · right; rfl
      · left; exact List.mem_cons_of_mem _ hp
    · rw [dictSet, if_neg h] at hp
      rcases List.mem_cons.1 hp with rfl | hp
      · left; exact List.mem_cons_self _ _
      · rcases ih hp with h' | h'
        · left; exact List.mem_cons_of_mem _ h'
        · right; exact h'

theorem dictSet_noop {β : Type} {d : List (String × β)} {k : String} {v : β}
    (h : dictGet d k = some v) : dictSet d k v = d := by
  induction d with
  | nil => simp [dictGet] at h
  | cons p rest ih =>
    obtain ⟨k0, v0⟩ := p
    by_cases hk : k0 = k
    · rw [dictGet, if_pos hk] at h
      rcases Option.some.inj h with rfl
      rw [dictSet, if_pos hk, hk]
    · rw [dictGet, if_neg hk] at h
      rw [dictSet, if_neg hk, ih h]

theorem dictGet_of_mem_nodup {β : Type} {d : List (String × β)}
    (hnd : (keysOf d).Nodup) {k : String} {v : β} (h : (k, v) ∈ d) :
    dictGet d k = some v := by
  induction d with
  | nil => simp at h
  | cons p rest ih =>
    obtain ⟨k0, v0⟩ := p
    rcases List.mem_cons.1 h with heq | hmem
    · rcases Prod.mk.inj heq with ⟨rfl, rfl⟩
      rw [dictGet, if_pos rfl]
    · have hk0 : k0 ∉ keysOf rest := (List.nodup_cons.1 hnd).1
      have hne : k0 ≠ k := by
        rintro rfl
        exact hk0 (List.mem_map.2 ⟨(k0, v), hmem, rfl⟩)
      rw [dictGet, if_neg hne]
      exact ih (List.nodup_cons.1 hnd).2 hmem

theorem nodup_keysOf_dictSet {β : Type} {d : List (String × β)} (k : String) (v : β)
    (h : (keysOf d).Nodup) : (keysOf (dictSet d k v)).Nodup := by
  rw [keysOf_dictSet]
  by_cases hc : k ∈ keysOf d
  · simp [hc, h]
  · simp [hc, List.nodup_append, h]

/-! ## Lemmas: `setAll` and `addNew` -/

theorem setAll_cons {β : Type} (d : List (String × β)) (p : String × β)
    (ps : List (String × β)) : setAll d (p :: ps) = setAll (dictSet d p.1 p.2) ps := rfl

theorem mem_addNew {x : String} {seen l : List String} :
    x ∈ addNew seen l ↔ x ∈ seen ∨ x ∈ l := by
  induction l generalizing seen with
  | nil => simp [addNew]
  | cons k ks ih =>
    by_cases h : seen.contains k
    · have hk : k ∈ seen := by simpa using h
      rw [addNew, if_pos h, ih]
      constructor
      · rintro (hx | hx)
        · exact Or.inl hx
        · exact Or.inr (List.mem_cons_of_mem _ hx)
      · rintro (hx | hx)
        · exact Or.inl hx
        · rcases List.mem_cons.1 hx with rfl | hx
          · exact Or.inl hk
          · exact Or.inr hx
    · rw [addNew, if_neg h, ih]
      simp [List.mem_append]
      tauto

theorem nodup_addNew {seen : List String} (l : List String) (h : seen.Nodup) :
    (addNew seen l).Nodup := by
  induction l generalizing seen with
  | nil => exact h
  | cons k ks ih =>
    by_cases hc : seen.contains k
    · rw [addNew, if_pos hc]
      exact ih h
    · rw [addNew, if_neg hc]
      have hk : k ∉ seen := by simpa using hc
      exact ih (by simp [List.nodup_append, h, hk])

theorem addNew_sublist (seen l : List String) :
    ∃ l', addNew seen l = seen ++ l' ∧ l'.Sublist l := by
  induction l generalizing seen with
  | nil => exact ⟨[], by simp [addNew], List.Sublist.refl []⟩
  | cons k ks ih =>
    by_cases hc : seen.contains k
    · rcases ih seen with ⟨l', heq, hsub⟩
      exact ⟨l', by rw [addNew, if_pos hc, heq], hsub.cons k⟩
    · rcases ih (seen ++ [k]) with ⟨l', heq, hsub⟩
      refine ⟨k :: l', ?_, hsub.cons₂ k⟩
      rw [addNew, if_neg hc, heq, List.append_assoc]
      rfl

theorem addNew_absorb {seen l : List String} (h : ∀ x ∈ l, x ∈ seen) :
    addNew seen l = seen := by
  induction l with
  | nil => rfl
  | cons k ks ih =>
    have hc : seen.contains k := by
      simpa using h k (List.mem_cons_self k ks)
    rw [addNew, if_pos hc]
    exact ih (fun x hx => h x (List.mem_cons_of_mem k hx))

theorem addNew_append (seen l l' : List String) :
    addNew seen (l ++ l') = addNew (addNew seen l) l' := by
  induction l generalizing seen with
  | nil => rfl
  | cons k ks ih =>
    by_cases hc : seen.contains k
    · rw [List.cons_append, addNew, if_pos hc, ih, addNew, if_pos hc]
    · rw [List.cons_append, addNew, if_neg hc, ih, addNew, if_neg hc]

theorem keysOf_setAll {β : Type} (d : List (String × β)) (ps : List (String × β)) :
    keysOf (setAll d ps) = addNew (keysOf d) (ps.map Prod.fst) := by
  induction ps generalizing d with
  | nil => rfl
  | cons p ps ih =>
    rw [setAll_cons, ih, List.map_cons, addNew, keysOf_dictSet]
    by_cases hc : p.1 ∈ keysOf d
    · rw [if_pos hc, if_pos (by simpa using hc)]
    · rw [if_neg hc, if_neg (by simpa using hc)]

theorem nodup_keysOf_setAll {β : Type} {d : List (String × β)}
    (ps : List (String × β)) (h : (keysOf d).Nodup) :
    (keysOf (setAll d ps)).Nodup := by
  rw [keysOf_setAll]
  exact nodup_addNew _ h

theorem dictGet_setAll_not_mem {β : Type} {ps : List (String × β)} {k : String}
    (hk : k ∉ ps.map Prod.fst) (d : List (String × β)) :
    dictGet (setAll d ps) k = dictGet d k := by
  induction ps generalizing d with
  | nil => rfl
  | cons p ps ih =>
    rw [setAll_cons, ih (fun h => hk (List.mem_cons_of_mem _ h)),
        dictGet_dictSet_ne]
    intro e
    exact hk (e ▸ List.mem_cons_self _ _)

theorem dictGet_setAll_of_mem {β : Type} {ps : List (String × β)}
    (hfun : ∀ k v₁ v₂, (k, v₁) ∈ ps → (k, v₂) ∈ ps → v₁ = v₂)
    (d : List (String × β)) {k : String} {v : β} (h : (k, v) ∈ ps) :
    dictGet (setAll d ps) k = some v := by
  induction ps generalizing d with
  | nil => simp at h
  | cons p ps ih =>
    rw [setAll_cons]
    by_cases hk : k ∈ ps.map Prod.fst
    · rcases List.mem_map.1 hk with ⟨q, hq, hq1⟩
      have hqv : q.2 = v := by
        have : (k, q.2) ∈ p :: ps := List.mem_cons_of_mem p (by rw [← hq1]; exact hq)
        exact hfun k q.2 v this h
      have hmem : (k, v) ∈ ps := by
        rw [← hqv, ← hq1]
        exact hq
      exact ih (fun a b c hb hc =>
        hfun a b c (List.mem_cons_of_mem p hb) (List.mem_cons_of_mem p hc)) _ hmem
    · have hp : p = (k, v) := by
        rcases List.mem_cons.1 h with heq | hmem
        · exact heq.symm
        · exact absurd (List.mem_map.2 ⟨(k, v), hmem, rfl⟩) hk
      rw [dictGet_setAll_not_mem hk, hp, dictGet_dictSet_self]

theorem setAll_noop {β : Type} {d : List (String × β)} {ps : List (String × β)}
    (h : ∀ p ∈ ps, dictGet d p.1 = some p.2) : setAll d ps = d := by
  induction ps with
  | nil => rfl
  | cons p ps ih =>
    rw [setAll_cons, dictSet_noop (h p (List.mem_cons_self p ps))]
    exact ih (fun q hq => h q (List.mem_cons_of_mem p hq))

theorem setAll_setAll {β : Type} {ps : List (String × β)}
    (hfun : ∀ k v₁ v₂, (k, v₁) ∈ ps → (k, v₂) ∈ ps → v₁ = v₂)
    (d : List (String × β)) : setAll (setAll d ps) ps = setAll d ps :=
  setAll_noop (fun p hp => dictGet_setAll_of_mem hfun d (by exact hp))

theorem mem_setAll {β : Type} {d ps : List (String × β)} {q : String × β}
    (h : q ∈ setAll d ps) : q ∈ d ∨ q ∈ ps := by
  induction ps generalizing d with
  | nil => exact Or.inl h
  | cons p ps ih =>
    rw [setAll_cons] at h
    rcases ih h with h' | h'
    · rcases mem_dictSet h' with h'' | h''
      · exact Or.inl h''
      · exact Or.inr (by rw [h'']; exact List.mem_cons_self _ _)
    · exact Or.inr (List.mem_cons_of_mem p h')

/-! ## Lemmas: the `json_data` aggregation -/

theorem mem_of_dictGet {β : Type} {d : List (String × β)} {k : String} {v : β}
    (h : dictGet d k = some v) : (k, v) ∈ d := by
  induction d with
  | nil => simp [dictGet] at h
  | cons p rest ih =>
    obtain ⟨k0, v0⟩ := p
    by_cases hk : k0 = k
    · rw [dictGet, if_pos hk] at h
      rcases Option.some.inj h with rfl
      rw [hk]
      exact List.mem_cons_self _ _
    · rw [dictGet, if_neg hk] at h
      exact List.mem_cons_of_mem _ (ih h)

theorem keysOf_foldl_buildStep (ts : List (String × String × String))
    (jd : List (String × List (String × String))) :
    keysOf (ts.foldl buildStep jd) = addNew (keysOf jd) (ts.map (fun t => t.1)) := by
  induction ts generalizing jd with
  | nil => rfl
  | cons t ts ih =>
    rw [List.foldl_cons, ih, List.map_cons, addNew, buildStep, keysOf_dictSet]
    by_cases hc : t.1 ∈ keysOf jd
    · rw [if_pos hc, if_pos (by simpa using hc)]
    · rw [if_neg hc, if_neg (by simpa using hc)]

theorem dictGet_foldl_block_ne (r₀ : String) (ps : List (String × String))
    (jd : List (String × List (String × String))) {r : String} (hne : r ≠ r₀) :
    dictGet ((ps.map (fun p => (r₀, p.1, p.2))).foldl buildStep jd) r = dictGet jd r := by
  induction ps generalizing jd with
  | nil => rfl
  | cons p ps ih =>
    rw [List.map_cons, List.foldl_cons, ih, buildStep, dictGet_dictSet_ne _ hne]

theorem dictGet_foldl_block_self (r₀ : String) (ps : List (String × String))
    (hps : ps ≠ []) (jd : List (String × List (String × String))) :
    dictGet ((ps.map (fun p => (r₀, p.1, p.2))).foldl buildStep jd) r₀ =
      some (setAll ((dictGet jd r₀).getD []) ps) := by
  induction ps generalizing jd with
  | nil => exact absurd rfl hps
  | cons p ps ih =>
    rw [List.map_cons, List.foldl_cons]
    by_cases hps' : ps = []
    · subst hps'
      simp only [List.map_nil, List.foldl_nil, buildStep, setAll_cons]
      rw [dictGet_dictSet_self]
      rfl
    · rw [ih hps']
      simp only [buildStep]
      rw [dictGet_dictSet_self]
      rw [setAll_cons]
      rfl

/-- The central characterization: what `json_data` holds at key `r` after
folding the per-region blocks of a region list, provided the pairs of `r`
carry one value per key (as they do when keys are the derived service
names of a parameter map). -/
theorem dictGet_build_flatMap (pairs : String → List (String × String))
    (rs : List String) (r : String)
    (hfun : ∀ k v₁ v₂, (k, v₁) ∈ pairs r → (k, v₂) ∈ pairs r → v₁ = v₂)
    (jd : List (String × List (String × String))) :
    dictGet ((rs.flatMap (fun q => (pairs q).map (fun p => (q, p.1, p.2)))).foldl
        buildStep jd) r =
      if r ∈ rs ∧ pairs r ≠ [] then some (setAll ((dictGet jd r).getD []) (pairs r))
      else dictGet jd r := by
  induction rs generalizing jd with
  | nil => simp
  | cons r₀ rest ih =>
    rw [List.flatMap_cons, List.foldl_append, ih]
    by_cases hr : r = r₀
    · subst hr
      by_cases hp : pairs r = []
      · simp [hp]
      · rw [dictGet_foldl_block_self r (pairs r) hp jd]
        by_cases hrest : r ∈ rest
        · rw [if_pos ⟨hrest, hp⟩, if_pos ⟨List.mem_cons_self r rest, hp⟩]
          simp only [Option.getD_some]
          rw [setAll_setAll hfun]
        · rw [if_neg (fun h => hrest h.1), if_pos ⟨List.mem_cons_self r rest, hp⟩]
    · rw [dictGet_foldl_block_ne r₀ (pairs r₀) jd hr]
      by_cases hrest : r ∈ rest ∧ pairs r ≠ []
      · rw [if_pos hrest, if_pos ⟨List.mem_cons_of_mem r₀ hrest.1, hrest.2⟩]
      · rw [if_neg hrest, if_neg]
        intro h
        rcases List.mem_cons.1 h.1 with h' | h'
        · exact hr h'
        · exact hrest ⟨h', h.2⟩

theorem map_fst_flatMap_blocks (pairs : String → List (String × String))
    (rs : List String) :
    (rs.flatMap (fun q => (pairs q).map (fun p => (q, p.1, p.2)))).map (fun t => t.1) =
      rs.flatMap (fun q => List.replicate (pairs q).length q) := by
  induction rs with
  | nil => rfl
  | cons r rest ih =>
    rw [List.flatMap_cons, List.flatMap_cons, List.map_append, ih, List.map_map]
    congr 1
    rw [show ((fun t : String × String × String => t.1) ∘ fun p : String × String =>
          (r, p.1, p.2)) = fun _ => r from rfl]
    rw [List.map_const']

theorem pairwise_replicate_strLe (n : Nat) (a : String) :
    (List.replicate n a).Pairwise (fun x y => strLe x y = true) := by
  induction n with
  | zero => simp
  | succ m ih =>
    rw [List.replicate_succ]
    refine List.pairwise_cons.2 ⟨?_, ih⟩
    intro b hb
    rcases (List.mem_replicate.1 hb).2 with rfl
    exact strLe_refl _

theorem pairwise_flatMap_replicate {rs : List String}
    (h : rs.Pairwise (fun x y => strLe x y = true)) (n : String → Nat) :
    (rs.flatMap (fun q => List.replicate (n q) q)).Pairwise
      (fun x y => strLe x y = true) := by
  induction rs with
  | nil => simp
  | cons r rest ih =>
    rcases List.pairwise_cons.1 h with ⟨hr, hrest⟩
    rw [List.flatMap_cons, List.pairwise_append]
    refine ⟨pairwise_replicate_strLe _ _, ih hrest, ?_⟩
    intro a ha b hb
    rcases (List.mem_replicate.1 ha).2 with rfl
    rcases List.mem_flatMap.1 hb with ⟨q, hq, hbq⟩
    rcases (List.mem_replicate.1 hbq).2 with rfl
    exact hr _ hq

theorem mem_flatMap_replicate {rs : List String} {n : String → Nat} {r : String} :
    r ∈ rs.flatMap (fun q => List.replicate (n q) q) ↔ r ∈ rs ∧ n r ≠ 0 := by
  constructor
  · intro h
    rcases List.mem_flatMap.1 h with ⟨q, hq, hr⟩
    rcases List.mem_replicate.1 hr with ⟨hn, rfl⟩
    exact ⟨hq, hn⟩
  · rintro ⟨hq, hn⟩
    exact List.mem_flatMap.2 ⟨r, hq, List.mem_replicate.2 ⟨hn, rfl⟩⟩

/-! ## Lemmas: running computations -/

theorem run_bind_state {α β : Type} (x : M α) (k : α → M β) (st : ProgState) :
    (x >>= k) st =
      match x st with
      | (st', Except.ok a) => k a st'
      | (st', Except.error e) => (st', Except.error e) := rfl

theorem run_bind {α β : Type} {x : M α} {k : α → M β} {st st' : ProgState} {a : α}
    (h : x st = (st', Except.ok a)) : (x >>= k) st = k a st' := by
  rw [run_bind_state, h]

theorem run_bind_error {α β : Type} {x : M α} {k : α → M β} {st st' : ProgState}
    {e : PyExc} (h : x st = (st', Except.error e)) :
    (x >>= k) st = (st', Except.error e) := by
  rw [run_bind_state, h]

theorem run_pure {α : Type} (a : α) (st : ProgState) :
    (pure a : M α) st = (st, Except.ok a) := rfl

/-- A computation that never writes to standard output and never reads
standard input (every piece of the pipeline after the confirmation gate). -/
def preservesOut {α : Type} (x : M α) : Prop :=
  ∀ st : ProgState, (x st).1.stdout = st.stdout ∧ (x st).1.stdinReads = st.stdinReads

theorem preservesOut_pure {α : Type} (a : α) : preservesOut (pure a : M α) :=
  fun _ => ⟨rfl, rfl⟩

theorem preservesOut_printErr (msg : String) : preservesOut (printErr msg) :=
  fun _ => ⟨rfl, rfl⟩

theorem preservesOut_raise {α : Type} (e : PyExc) : preservesOut (raise e : M α) :=
  fun _ => ⟨rfl, rfl⟩

theorem preservesOut_quit_error {α : Type} (msg : String) :
    preservesOut (quit_error msg : M α) := fun _ => ⟨rfl, rfl⟩

theorem preservesOut_listRegionsCall (env : FEnv) : preservesOut (listRegionsCall env) :=
  fun _ => ⟨rfl, rfl⟩

theorem preservesOut_listServicesCall (env : FEnv) (region : String) :
    preservesOut (listServicesCall env region) := fun _ => ⟨rfl, rfl⟩

theorem preservesOut_getParametersCall (env : FEnv) (names : List String) :
    preservesOut (getParametersCall env names) := fun _ => ⟨rfl, rfl⟩

theorem preservesOut_bind {α β : Type} {x : M α} {k : α → M β}
    (hx : preservesOut x) (hk : ∀ a, preservesOut (k a)) : preservesOut (x >>= k) := by
  intro st
  rw [run_bind_state]
  rcases hres : x st with ⟨st', r⟩
  have hx' := hx st
  rw [hres] at hx'
  cases r with
  | ok a =>
    have hk' := hk a st'
    exact ⟨hx'.1 ▸ hk'.1, hx'.2 ▸ hk'.2⟩
  | error e => exact ⟨hx'.1, hx'.2⟩

theorem preservesOut_ite {α : Type} {c : Prop} [Decidable c] {x y : M α}
    (hx : preservesOut x) (hy : preservesOut y) : preservesOut (if c then x else y) := by
  by_cases h : c
  · rw [if_pos h]; exact hx
  · rw [if_neg h]; exact hy

theorem preservesOut_foldlM {γ δ : Type} (step : γ → δ → M γ)
    (h : ∀ acc r, preservesOut (step acc r)) (l : List δ) :
    ∀ acc, preservesOut (List.foldlM step acc l) := by
  induction l with
  | nil => intro acc; exact preservesOut_pure acc
  | cons r rest ih =>
    intro acc
    rw [List.foldlM_cons]
    exact preservesOut_bind (h acc r) (fun acc' => ih acc')

theorem preservesOut_get_regions (env : FEnv) (ro : Option String) :
    preservesOut (get_regions env ro) := by
  rw [get_regions.eq_def]
  dsimp only
  apply preservesOut_ite
  · exact preservesOut_bind (preservesOut_pure _) (fun _ => preservesOut_pure _)
  · exact preservesOut_bind (preservesOut_printErr _) (fun _ =>
      preservesOut_bind (preservesOut_listRegionsCall env) (fun _ =>
        preservesOut_bind (preservesOut_printErr _) (fun _ =>
          preservesOut_bind (preservesOut_pure _) (fun _ => preservesOut_pure _))))

theorem preservesOut_get_region_services (env : FEnv) (so : Option String)
    (region : String) : preservesOut (get_region_services env so region) := by
  rw [get_region_services.eq_def]
  dsimp only
  apply preservesOut_ite
  · exact preservesOut_bind (preservesOut_pure _) (fun _ => preservesOut_pure _)
  · exact preservesOut_bind (preservesOut_printErr _) (fun _ =>
      preservesOut_bind (preservesOut_listServicesCall env region) (fun _ =>
        preservesOut_bind (preservesOut_printErr _) (fun _ =>
          preservesOut_bind (preservesOut_pure _) (fun _ => preservesOut_pure _))))

theorem preservesOut_batchStep (env : FEnv) (region : String)
    (acc : List (String × String × String)) (batch : List String) :
    preservesOut (batchStep env region acc batch) := by
  rw [batchStep]
  exact preservesOut_bind (preservesOut_getParametersCall env batch) (fun _ =>
    preservesOut_bind (preservesOut_printErr _) (fun _ => preservesOut_pure _))

theorem preservesOut_get_service_endpoints (env : FEnv) (region : String)
    (services : List String) : preservesOut (get_service_endpoints env region services) := by
  rw [get_service_endpoints]
  exact preservesOut_foldlM _ (preservesOut_batchStep env region) _ []

theorem preservesOut_regionStep (env : FEnv) (so : Option String)
    (acc : List (String × String × String)) (region : String) :
    preservesOut (regionStep env so acc region) := by
  rw [regionStep]
  refine preservesOut_bind (preservesOut_get_region_services env so region)
    (fun region_services => ?_)
  dsimp only
  apply preservesOut_ite
  · exact preservesOut_bind (preservesOut_printErr _) (fun _ =>
      preservesOut_bind (preservesOut_get_service_endpoints env region region_services)
        (fun _ => preservesOut_bind (preservesOut_printErr _)
          (fun _ => preservesOut_pure _)))
  · exact preservesOut_bind (preservesOut_printErr _) (fun _ =>
      preservesOut_bind (preservesOut_get_service_endpoints env region region_services)
        (fun _ => preservesOut_bind (preservesOut_printErr _)
          (fun _ => preservesOut_pure _)))

/-- The whole pipeline after the gate touches neither standard output nor
standard input, on any environment, failing or not. -/
theorem preservesOut_generate_output_json (env : FEnv) (ro so : Option String) :
    preservesOut (generate_output_json env ro so) := by
  rw [generate_output_json]
  exact preservesOut_bind (preservesOut_get_regions env ro) (fun regions =>
    preservesOut_bind (preservesOut_foldlM _ (preservesOut_regionStep env so) regions [])
      (fun _ => preservesOut_pure _))

/-! ## Lemmas: the resolvers on a fault-free environment -/

theorem regionsOf_truthy (env : Env) {s : String} (hs : s ≠ "") :
    regionsOf env (some s) = pysorted (pySplit ',' s) := by
  simp [regionsOf, hs]

theorem regionsOf_falsy (env : Env) (ro : Option String) (h : pyTruthy ro = false) :
    regionsOf env ro = pysorted (env.regionValues.filter (fun v => v != "global")) := by
  cases ro with
  | none => rfl
  | some s =>
    have hs : s = "" := by simpa [pyTruthy] using h
    simp [regionsOf, hs]

theorem servicesOf_truthy (env : Env) {s : String} (hs : s ≠ "") (region : String) :
    servicesOf env (some s) region = pysorted (pySplit ',' s) := by
  simp [servicesOf, hs]

theorem servicesOf_falsy (env : Env) (so : Option String) (h : pyTruthy so = false)
    (region : String) :
    servicesOf env so region = pysorted (env.serviceValues region) := by
  cases so with
  | none => rfl
  | some s =>
    have hs : s = "" := by simpa [pyTruthy] using h
    simp [servicesOf, hs]

/-- A non-empty override short-circuits `get_regions`: no print, no API
call, the comma-split list sorted — on ANY environment. -/
theorem get_regions_override (env : FEnv) {s : String} (hs : s ≠ "") (st : ProgState) :
    get_regions env (some s) st = (st, Except.ok (pysorted (pySplit ',' s))) := by
  rcases hsp : pySplit ',' s with _ | ⟨a, as⟩
  · exact absurd hsp (pySplit_ne_nil ',' s)
  · rw [get_regions.eq_def]
    dsimp only
    rw [if_neg hs, hsp]
    rfl

/-- With no (or an empty) override, `get_regions` on a fault-free
environment runs the pagination and returns the filtered, sorted values. -/
theorem get_regions_listing (env : Env) (i : String) (ro : Option String)
    (hro : pyTruthy ro = false) (st : ProgState) :
    get_regions (okFEnv env i) ro st =
      ({ st with
          stderr := (st.stderr ++ ["Retrieving all AWS regions... "]) ++
            ["found " ++ toString (env.regionValues.filter (fun v => v != "global")).length
              ++ " regions."],
          apiCalls := st.apiCalls ++ [ApiCall.listPath regionsPath] },
       Except.ok (pysorted (env.regionValues.filter (fun v => v != "global")))) := by
  cases ro with
  | none => rfl
  | some s =>
    have hs : s = "" := by simpa [pyTruthy] using hro
    subst hs
    rfl

theorem get_region_services_override (env : FEnv) {s : String} (hs : s ≠ "")
    (region : String) (st : ProgState) :
    get_region_services env (some s) region st =
      (st, Except.ok (pysorted (pySplit ',' s))) := by
  rcases hsp : pySplit ',' s with _ | ⟨a, as⟩
  · exact absurd hsp (pySplit_ne_nil ',' s)
  · rw [get_region_services.eq_def]
    dsimp only
    rw [if_neg hs, hsp]
    rfl

theorem get_region_services_listing (env : Env) (i : String) (so : Option String)
    (hso : pyTruthy so = false) (region : String) (st : ProgState) :
    get_region_services (okFEnv env i) so region st =
      ({ st with
          stderr := (st.stderr ++ ["Retrieving all services in " ++ region ++ "... "]) ++
            ["found " ++ toString (env.serviceValues region).length ++ " services."],
          apiCalls := st.apiCalls ++ [ApiCall.listPath (servicesPath region)] },
       Except.ok (pysorted (env.serviceValues region))) := by
  cases so with
  | none => rfl
  | some s =>
    have hs : s = "" := by simpa [pyTruthy] using hso
    subst hs
    rfl

theorem get_regions_ok (env : Env) (i : String) (ro : Option String) (st : ProgState) :
    ∃ st' : ProgState,
      get_regions (okFEnv env i) ro st = (st', Except.ok (regionsOf env ro)) ∧
      st'.stdout = st.stdout ∧ st'.stdinReads = st.stdinReads := by
  by_cases h : pyTruthy ro = true
  · obtain ⟨s, rfl⟩ : ∃ s, ro = some s := by
      cases ro with
      | none => simp [pyTruthy] at h
      | some s => exact ⟨s, rfl⟩
    have hs : s ≠ "" := by simpa [pyTruthy] using h
    exact ⟨st, by rw [get_regions_override _ hs, regionsOf_truthy env hs], rfl, rfl⟩
  · have h' : pyTruthy ro = false := by simpa using h
    refine ⟨{ st with
        stderr := (st.stderr ++ ["Retrieving all AWS regions... "]) ++
          ["found " ++ toString (env.regionValues.filter (fun v => v != "global")).length
            ++ " regions."],
        apiCalls := st.apiCalls ++ [ApiCall.listPath regionsPath] }, ?_, rfl, rfl⟩
    rw [get_regions_listing env i ro h', regionsOf_falsy env ro h']

theorem get_region_services_ok (env : Env) (i : String) (so : Option String)
    (region : String) (st : ProgState) :
    ∃ st' : ProgState,
      get_region_services (okFEnv env i) so region st =
        (st', Except.ok (servicesOf env so region)) ∧
      st'.stdout = st.stdout ∧ st'.stdinReads = st.stdinReads := by
  by_cases h : pyTruthy so = true
  · obtain ⟨s, rfl⟩ : ∃ s, so = some s := by
      cases so with
      | none => simp [pyTruthy] at h
      | some s => exact ⟨s, rfl⟩
    have hs : s ≠ "" := by simpa [pyTruthy] using h
    exact ⟨st, by rw [get_region_services_override _ hs region,
      servicesOf_truthy env hs region], rfl, rfl⟩
  · have h' : pyTruthy so = false := by simpa using h
    refine ⟨{ st with
        stderr := (st.stderr ++ ["Retrieving all services in " ++ region ++ "... "]) ++
          ["found " ++ toString (env.serviceValues region).length ++ " services."],
        apiCalls := st.apiCalls ++ [ApiCall.listPath (servicesPath region)] }, ?_, rfl, rfl⟩
    rw [get_region_services_listing env i so h' region, servicesOf_falsy env so h' region]

/-! ## Lemmas: the endpoint fetcher on a fault-free environment -/

theorem filterMap_flatten {α β : Type} (L : List (List α)) (f : α → Option β) :
    L.flatten.filterMap f = L.flatMap (fun b => b.filterMap f) := by
  induction L with
  | nil => rfl
  | cons b bs ih => simp [List.filterMap_append, ih]

theorem foldlM_batchStep_ok (env : Env) (i : String) (region : String)
    (batches : List (List String)) :
    ∀ (acc : List (String × String × String)) (st : ProgState),
    List.foldlM (batchStep (okFEnv env i) region) acc batches st =
      ({ st with stderr := st.stderr ++ List.replicate batches.length ".",
                 apiCalls := st.apiCalls ++ batches.map ApiCall.getParameters },
       Except.ok (acc ++ batches.flatMap (fun b =>
         (ssmGetParameters env.params b).map
           (fun p => (region, secondToLast (pySplit '/' p.1), p.2))))) := by
  induction batches with
  | nil =>
    intro acc st
    obtain ⟨o, e, a, n⟩ := st
    simp [List.foldlM_nil, run_pure]
  | cons b bs ih =>
    intro acc st
    rw [List.foldlM_cons]
    have hstep : batchStep (okFEnv env i) region acc b st =
        ({ st with stderr := st.stderr ++ ["."],
                   apiCalls := st.apiCalls ++ [ApiCall.getParameters b] },
         Except.ok (acc ++ (ssmGetParameters env.params b).map
           (fun p => (region, secondToLast (pySplit '/' p.1), p.2)))) := rfl
    rw [run_bind hstep, ih]
    obtain ⟨o, e, a, n⟩ := st
    simp [List.replicate_succ, List.append_assoc]

theorem get_service_endpoints_ok (env : Env) (i : String) (region : String)
    (services : List String) (st : ProgState) :
    get_service_endpoints (okFEnv env i) region services st =
      ({ st with
          stderr := st.stderr ++
            List.replicate (chunk10 (services.map (parameterName region))).length ".",
          apiCalls := st.apiCalls ++
            (chunk10 (services.map (parameterName region))).map ApiCall.getParameters },
       Except.ok ((services.map (parameterName region)).filterMap
         (fun n => (env.params n).map
           (fun v => (region, secondToLast (pySplit '/' n), v))))) := by
  rw [get_service_endpoints, foldlM_batchStep_ok]
  have h1 : ∀ b : List String,
      (ssmGetParameters env.params b).map
        (fun p => (region, secondToLast (pySplit '/' p.1), p.2)) =
      b.filterMap (fun n => (env.params n).map
        (fun v => (region, secondToLast (pySplit '/' n), v))) := by
    intro b
    rw [ssmGetParameters, List.map_filterMap]
    congr 1
    funext n
    cases env.params n <;> rfl
  simp only [h1, List.nil_append]
  rw [← filterMap_flatten, chunk10_flatten]

theorem regionStep_ok (env : Env) (i : String) (so : Option String)
    (acc : List (String × String × String)) (region : String) (st : ProgState) :
    ∃ st' : ProgState, regionStep (okFEnv env i) so acc region st =
      (st', Except.ok (acc ++ triplesFor env so region)) ∧
      st'.stdout = st.stdout ∧ st'.stdinReads = st.stdinReads := by
  rcases get_region_services_ok env i so region st with ⟨st1, hsvc, ho1, hr1⟩
  rw [regionStep, run_bind hsvc]
  dsimp only
  by_cases hso : (!pyTruthy so) = true
  · rw [if_pos hso]
    have hpe : printErr ("Retrieving endpoints for " ++ region ++ "...") st1 =
        ({ st1 with stderr := st1.stderr ++
            ["Retrieving endpoints for " ++ region ++ "..."] }, Except.ok ()) := rfl
    rw [run_bind hpe, run_bind (get_service_endpoints_ok env i region
      (servicesOf env so region) _),
      run_bind (show printErr " done." _ = (_, Except.ok ()) from rfl), run_pure]
    exact ⟨_, rfl, ho1, hr1⟩
  · rw [if_neg hso]
    have hpe : printErr ("Retrieving endpoint(s) for " ++
        String.intercalate ", " (servicesOf env so region) ++ " in " ++ region ++ "...") st1 =
        ({ st1 with stderr := st1.stderr ++
            ["Retrieving endpoint(s) for " ++
              String.intercalate ", " (servicesOf env so region) ++ " in " ++ region ++
              "..."] }, Except.ok ()) := rfl
    rw [run_bind hpe, run_bind (get_service_endpoints_ok env i region
      (servicesOf env so region) _),
      run_bind (show printErr " done." _ = (_, Except.ok ()) from rfl), run_pure]
    exact ⟨_, rfl, ho1, hr1⟩

theorem foldlM_regionStep_ok (env : Env) (i : String) (so : Option String)
    (regions : List String) :
    ∀ (acc : List (String × String × String)) (st : ProgState),
    ∃ st' : ProgState,
      List.foldlM (regionStep (okFEnv env i) so) acc regions st =
        (st', Except.ok (acc ++ regions.flatMap (triplesFor env so))) ∧
      st'.stdout = st.stdout ∧ st'.stdinReads = st.stdinReads := by
  induction regions with
  | nil =>
    intro acc st
    exact ⟨st, by simp [List.foldlM_nil, run_pure], rfl, rfl⟩
  | cons r rest ih =>
    intro acc st
    rcases regionStep_ok env i so acc r st with ⟨st1, hstep, ho1, hr1⟩
    rcases ih (acc ++ triplesFor env so r) st1 with ⟨st2, hrest, ho2, hr2⟩
    refine ⟨st2, ?_, by rw [ho2, ho1], by rw [hr2, hr1]⟩
    rw [List.foldlM_cons, run_bind hstep, hrest, List.flatMap_cons, List.append_assoc]

/-- The pipeline on a fault-free environment: returns exactly
`json.dumps(json_data, indent=4)` over the triples of the sorted resolved
regions, and touches neither standard output nor standard input. -/
theorem generate_output_json_ok (env : Env) (i : String) (ro so : Option String)
    (st : ProgState) :
    ∃ st' : ProgState,
      generate_output_json (okFEnv env i) ro so st =
        (st', Except.ok (dumps (buildJsonData (allTriples env ro so)))) ∧
      st'.stdout = st.stdout ∧ st'.stdinReads = st.stdinReads := by
  rcases get_regions_ok env i ro st with ⟨st1, hreg, ho1, hr1⟩
  rcases foldlM_regionStep_ok env i so (regionsOf env ro) [] st1 with ⟨st2, hloop, ho2, hr2⟩
  refine ⟨st2, ?_, by rw [ho2, ho1], by rw [hr2, hr1]⟩
  rw [generate_output_json, run_bind hreg, run_bind hloop, run_pure, allTriples]
  simp

/-! ## Lemmas: the confirmation gate and the top-level dispatch -/

theorem run_quit_error (m : String) (S : ProgState) :
    (quit_error m : M Unit) S =
      ({ S with stderr := S.stderr ++ [m] }, Except.error PyExc.systemExit) := rfl

/-- Whatever standard input holds, the gate writes its two notice lines to
standard output and reads standard input exactly once. -/
theorem confirm_state (env : FEnv) (st : ProgState) :
    ((confirm_unfiltered_execution env st).1).stdout =
      st.stdout ++ [confirmLine1, confirmLine2] ∧
    ((confirm_unfiltered_execution env st).1).stdinReads = st.stdinReads + 1 := by
  rw [confirm_unfiltered_execution]
  rw [run_bind (show printOut confirmLine1 st = (_, Except.ok ()) from rfl),
      run_bind (show printOut confirmLine2 _ = (_, Except.ok ()) from rfl),
      run_bind (show printErr confirmPrompt _ = (_, Except.ok ()) from rfl)]
  cases hstdin : env.stdin with
  | ok resp =>
    rw [run_bind (show readLine env _ = (_, Except.ok resp) from by
      rw [readLine, hstdin])]
    by_cases hresp : (pyLower resp != "y") = true
    · rw [if_pos hresp, run_quit_error]
      exact ⟨by simp, rfl⟩
    · rw [if_neg hresp, run_pure]
      exact ⟨by simp, rfl⟩
  | error e =>
    rw [run_bind_error (show readLine env _ = (_, Except.error e) from by
      rw [readLine, hstdin])]
    exact ⟨by simp, rfl⟩

/-- Declining the gate: the abort message and `SystemExit`. -/
theorem confirm_declined (env : FEnv) (st : ProgState) {resp : String}
    (hstdin : env.stdin = Except.ok resp) (hn : pyLower resp ≠ "y") :
    confirm_unfiltered_execution env st =
      ({ st with
          stdout := (st.stdout ++ [confirmLine1]) ++ [confirmLine2],
          stderr := (st.stderr ++ [confirmPrompt]) ++ ["User aborted program"],
          stdinReads := st.stdinReads + 1 }, Except.error PyExc.systemExit) := by
  rw [confirm_unfiltered_execution]
  rw [run_bind (show printOut confirmLine1 st = (_, Except.ok ()) from rfl),
      run_bind (show printOut confirmLine2 _ = (_, Except.ok ()) from rfl),
      run_bind (show printErr confirmPrompt _ = (_, Except.ok ()) from rfl),
      run_bind (show readLine env _ = (_, Except.ok resp) from by
        rw [readLine, hstdin])]
  rw [if_pos (by simpa using hn)]
  rfl

/-- Accepting the gate. -/
theorem confirm_accepted (env : FEnv) (st : ProgState) {resp : String}
    (hstdin : env.stdin = Except.ok resp) (hy : pyLower resp = "y") :
    confirm_unfiltered_execution env st =
      ({ st with
          stdout := (st.stdout ++ [confirmLine1]) ++ [confirmLine2],
          stderr := st.stderr ++ [confirmPrompt],
          stdinReads := st.stdinReads + 1 }, Except.ok ()) := by
  rw [confirm_unfiltered_execution]
  rw [run_bind (show printOut confirmLine1 st = (_, Except.ok ()) from rfl),
      run_bind (show printOut confirmLine2 _ = (_, Except.ok ()) from rfl),
      run_bind (show printErr confirmPrompt _ = (_, Except.ok ()) from rfl),
      run_bind (show readLine env _ = (_, Except.ok resp) from by
        rw [readLine, hstdin])]
  rw [if_neg (by simp [hy])]
  rfl

/-- On a failing run, whatever reaches standard output is one of the two
gate notices: in particular no JSON document is ever printed. -/
theorem pyMain_stdout_on_error (env : FEnv) (ro so : Option String)
    {st' : ProgState} {e : PyExc}
    (h : pyMain env ro so initState = (st', Except.error e)) :
    ∀ x ∈ st'.stdout, x = confirmLine1 ∨ x = confirmLine2 := by
  rw [pyMain] at h
  dsimp only at h
  by_cases hc : ((!pyTruthy ro) && !pyTruthy so) = true
  · rw [if_pos hc] at h
    rcases hcf : confirm_unfiltered_execution env initState with ⟨st1, r1⟩
    have hout1 : st1.stdout = [confirmLine1, confirmLine2] := by
      have := (confirm_state env initState).1
      rw [hcf] at this
      simpa [initState] using this
    cases r1 with
    | error e1 =>
      rw [run_bind_error hcf] at h
      rcases Prod.mk.inj h with ⟨rfl, _⟩
      intro x hx
      rw [hout1] at hx
      simpa using hx
    | ok u =>
      rw [run_bind hcf] at h
      rcases hg : generate_output_json env ro so st1 with ⟨st2, r2⟩
      have hout2 : st2.stdout = st1.stdout := by
        have := (preservesOut_generate_output_json env ro so st1).1
        rw [hg] at this
        exact this
      cases r2 with
      | error e2 =>
        rw [run_bind_error hg] at h
        rcases Prod.mk.inj h with ⟨rfl, _⟩
        intro x hx
        rw [hout2, hout1] at hx
        simpa using hx
      | ok json =>
        rw [run_bind hg] at h
        exact absurd (congrArg Prod.snd h) (by simp [printOut])
  · rw [if_neg hc] at h
    rw [run_bind (run_pure () initState)] at h
    rcases hg : generate_output_json env ro so initState with ⟨st2, r2⟩
    have hout2 : st2.stdout = [] := by
      have := (preservesOut_generate_output_json env ro so initState).1
      rw [hg] at this
      simpa [initState] using this
    cases r2 with
    | error e2 =>
      rw [run_bind_error hg] at h
      rcases Prod.mk.inj h with ⟨rfl, _⟩
      intro x hx
      rw [hout2] at hx
      simp at hx
    | ok json =>
      rw [run_bind hg] at h
      exact absurd (congrArg Prod.snd h) (by simp [printOut])

/-- Standard input is consulted exactly once when both overrides are falsy and
never otherwise. -/
theorem pyMain_stdinReads (env : FEnv) (ro so : Option String) :
    ((pyMain env ro so initState).1).stdinReads =
      (if ((!pyTruthy ro) && !pyTruthy so) = true then 1 else 0) := by
  rw [pyMain]
  dsimp only
  by_cases hc : ((!pyTruthy ro) && !pyTruthy so) = true
  · rw [if_pos hc, if_pos hc]
    rcases hcf : confirm_unfiltered_execution env initState with ⟨st1, r1⟩
    have hrd1 : st1.stdinReads = 1 := by
      have := (confirm_state env initState).2
      rw [hcf] at this
      simpa [initState] using this
    cases r1 with
    | error e1 =>
      rw [run_bind_error hcf]
      exact hrd1
    | ok u =>
      rw [run_bind hcf]
      rcases hg : generate_output_json env ro so st1 with ⟨st2, r2⟩
      have hrd2 : st2.stdinReads = st1.stdinReads := by
        have := (preservesOut_generate_output_json env ro so st1).2
        rw [hg] at this
        exact this
      cases r2 with
      | error e2 =>
        rw [run_bind_error hg]
        rw [hrd2, hrd1]
      | ok json =>
        rw [run_bind hg]
        show st2.stdinReads = 1
        rw [hrd2, hrd1]
  · rw [if_neg hc, if_neg hc]
    rw [run_bind (run_pure () initState)]
    rcases hg : generate_output_json env ro so initState with ⟨st2, r2⟩
    have hrd2 : st2.stdinReads = 0 := by
      have := (preservesOut_generate_output_json env ro so initState).2
      rw [hg] at this
      simpa [initState] using this
    cases r2 with
    | error e2 =>
      rw [run_bind_error hg]
      exact hrd2
    | ok json =>
      rw [run_bind hg]
      exact hrd2

/-! ## Lemmas: the per-region (service, endpoint) pairs -/

/-- The (derived service, endpoint) pairs of one region's batch sweep;
`triplesFor` is these pairs with the region prepended. -/
def pairsFor (env : Env) (so : Option String) (region : String) :
    List (String × String) :=
  ((servicesOf env so region).map (parameterName region)).filterMap
    (fun n => (env.params n).map (fun v => (secondToLast (pySplit '/' n), v)))

/-- The dict `json_data` as built by a fault-free run. -/
def jsonDataOf (env : Env) (ro so : Option String) :
    List (String × List (String × String)) :=
  buildJsonData (allTriples env ro so)

theorem filterMap_pair_map (names : List String) (f : String → Option String)
    (g : String → String) (r : String) :
    names.filterMap (fun n => (f n).map (fun v => (r, g n, v))) =
      (names.filterMap (fun n => (f n).map (fun v => (g n, v)))).map
        (fun p => (r, p.1, p.2)) := by
  induction names with
  | nil => rfl
  | cons n ns ih =>
    rw [List.filterMap_cons, List.filterMap_cons]
    cases hf : f n <;> simp [hf, ih]

theorem triplesFor_eq_map (env : Env) (so : Option String) (region : String) :
    triplesFor env so region =
      (pairsFor env so region).map (fun p => (region, p.1, p.2)) :=
  filterMap_pair_map _ env.params (fun n => secondToLast (pySplit '/' n)) region

theorem pairsName_eq (region : String) (l : List String)
    (hs : ∀ s ∈ l, s.data.contains '/' = false) (params : String → Option String) :
    (l.map (parameterName region)).filterMap
        (fun n => (params n).map (fun v => (secondToLast (pySplit '/' n), v))) =
      l.filterMap (fun s => (params (parameterName region s)).map (fun v => (s, v))) := by
  induction l with
  | nil => rfl
  | cons s ss ih =>
    rw [List.map_cons, List.filterMap_cons, List.filterMap_cons]
    have hd := secondToLast_parameterName region s (hs s (List.mem_cons_self s ss))
    cases hp : params (parameterName region s) with
    | none => simp [hp, ih (fun x hx => hs x (List.mem_cons_of_mem s hx))]
    | some v => simp [hp, hd, ih (fun x hx => hs x (List.mem_cons_of_mem s hx))]

theorem pairsFor_eq (env : Env) (so : Option String) (region : String)
    (hs : ∀ s ∈ servicesOf env so region, s.data.contains '/' = false) :
    pairsFor env so region =
      (servicesOf env so region).filterMap
        (fun s => (env.params (parameterName region s)).map (fun v => (s, v))) :=
  pairsName_eq region _ hs env.params

theorem map_fst_filterMap_pair (l : List String) (f : String → Option String) :
    (l.filterMap (fun s => (f s).map (fun v => (s, v)))).map Prod.fst =
      l.filter (fun s => (f s).isSome) := by
  induction l with
  | nil => rfl
  | cons s ss ih =>
    rw [List.filterMap_cons, List.filter_cons]
    cases hf : f s <;> simp [hf, ih]

theorem pairsFor_fst (env : Env) (so : Option String) (region : String)
    (hs : ∀ s ∈ servicesOf env so region, s.data.contains '/' = false) :
    (pairsFor env so region).map Prod.fst = servicesWithEndpoint env so region := by
  rw [pairsFor_eq env so region hs, servicesWithEndpoint, map_fst_filterMap_pair]

theorem pairsFor_functional (env : Env) (so : Option String) (region : String)
    (hs : ∀ s ∈ servicesOf env so region, s.data.contains '/' = false) :
    ∀ k v₁ v₂, (k, v₁) ∈ pairsFor env so region →
      (k, v₂) ∈ pairsFor env so region → v₁ = v₂ := by
  intro k v₁ v₂ h1 h2
  rw [pairsFor_eq env so region hs] at h1 h2
  rcases List.mem_filterMap.1 h1 with ⟨s₁, _, he₁⟩
  rcases List.mem_filterMap.1 h2 with ⟨s₂, _, he₂⟩
  rcases Option.map_eq_some'.1 he₁ with ⟨w₁, hw₁, hp₁⟩
  rcases Option.map_eq_some'.1 he₂ with ⟨w₂, hw₂, hp₂⟩
  rcases Prod.mk.inj hp₁ with ⟨rfl, rfl⟩
  rcases Prod.mk.inj hp₂ with ⟨rfl, rfl⟩
  rw [hw₁] at hw₂
  exact Option.some.inj hw₂

theorem mem_pairsFor (env : Env) (so : Option String) (region : String)
    (hs : ∀ s ∈ servicesOf env so region, s.data.contains '/' = false)
    {s e : String} (h : (s, e) ∈ pairsFor env so region) :
    env.params (parameterName region s) = some e ∧ s ∈ servicesOf env so region := by
  rw [pairsFor_eq env so region hs] at h
  rcases List.mem_filterMap.1 h with ⟨s', hmem, he⟩
  rcases Option.map_eq_some'.1 he with ⟨v, hv, hp⟩
  rcases Prod.mk.inj hp with ⟨rfl, rfl⟩
  exact ⟨hv, hmem⟩

theorem pairsFor_nil_iff (env : Env) (so : Option String) (region : String)
    (hs : ∀ s ∈ servicesOf env so region, s.data.contains '/' = false) :
    pairsFor env so region = [] ↔ servicesWithEndpoint env so region = [] := by
  rw [← pairsFor_fst env so region hs]
  constructor
  · intro h; rw [h]; rfl
  · intro h
    rcases hp : pairsFor env so region with _ | ⟨p, ps⟩
    · rfl
    · rw [hp] at h
      simp at h

theorem allTriples_eq (env : Env) (ro so : Option String) :
    allTriples env ro so =
      (regionsOf env ro).flatMap
        (fun q => (pairsFor env so q).map (fun p => (q, p.1, p.2))) := by
  rw [allTriples]
  congr 1
  funext q
  exact triplesFor_eq_map env so q

theorem regionsOf_pairwise (env : Env) (ro : Option String) :
    (regionsOf env ro).Pairwise (fun x y => strLe x y = true) := by
  cases ro with
  | none => exact pysorted_pairwise _
  | some s =>
    by_cases hs : s = "" <;> simp [regionsOf, hs] <;> exact pysorted_pairwise _

theorem servicesOf_pairwise (env : Env) (so : Option String) (region : String) :
    (servicesOf env so region).Pairwise (fun x y => strLe x y = true) := by
  cases so with
  | none => exact pysorted_pairwise _
  | some s =>
    by_cases hs : s = "" <;> simp [servicesOf, hs] <;> exact pysorted_pairwise _

theorem keysOf_jsonDataOf (env : Env) (ro so : Option String) :
    keysOf (jsonDataOf env ro so) =
      addNew [] ((regionsOf env ro).flatMap
        (fun q => List.replicate (pairsFor env so q).length q)) := by
  rw [jsonDataOf, buildJsonData, keysOf_foldl_buildStep, allTriples_eq,
    map_fst_flatMap_blocks]
  rfl

theorem nodup_keysOf_jsonDataOf (env : Env) (ro so : Option String) :
    (keysOf (jsonDataOf env ro so)).Nodup := by
  rw [keysOf_jsonDataOf]
  exact nodup_addNew _ List.nodup_nil

theorem sorted_keysOf_jsonDataOf (env : Env) (ro so : Option String) :
    strSortedB (keysOf (jsonDataOf env ro so)) = true := by
  rw [keysOf_jsonDataOf]
  rcases addNew_sublist [] ((regionsOf env ro).flatMap
    (fun q => List.replicate (pairsFor env so q).length q)) with ⟨l', heq, hsub⟩
  rw [heq, List.nil_append]
  exact strSortedB_of_pairwise
    (List.Pairwise.sublist hsub (pairwise_flatMap_replicate (regionsOf_pairwise env ro) _))

theorem mem_keysOf_jsonDataOf (env : Env) (ro so : Option String) (r : String) :
    r ∈ keysOf (jsonDataOf env ro so) ↔
      r ∈ regionsOf env ro ∧ pairsFor env so r ≠ [] := by
  rw [keysOf_jsonDataOf, mem_addNew]
  simp only [List.not_mem_nil, false_or]
  rw [mem_flatMap_replicate]
  simp [List.length_eq_zero]

theorem dictGet_jsonDataOf (env : Env) (ro so : Option String) (r : String)
    (hfun : ∀ k v₁ v₂, (k, v₁) ∈ pairsFor env so r → (k, v₂) ∈ pairsFor env so r →
      v₁ = v₂) :
    dictGet (jsonDataOf env ro so) r =
      if r ∈ regionsOf env ro ∧ pairsFor env so r ≠ []
      then some (setAll [] (pairsFor env so r)) else none := by
  rw [jsonDataOf, buildJsonData, allTriples_eq,
    dictGet_build_flatMap (pairsFor env so) (regionsOf env ro) r hfun []]
  by_cases h : r ∈ regionsOf env ro ∧ pairsFor env so r ≠ []
  · rw [if_pos h, if_pos h]
    rfl
  · rw [if_neg h, if_neg h]
    rfl

theorem inner_of_mem_jsonDataOf (env : Env) (ro so : Option String)
    (hs : ∀ r ∈ regionsOf env ro, ∀ s ∈ servicesOf env so r,
      s.data.contains '/' = false)
    {r : String} {d : List (String × String)} (h : (r, d) ∈ jsonDataOf env ro so) :
    r ∈ regionsOf env ro ∧ d = setAll [] (pairsFor env so r) := by
  have hget : dictGet (jsonDataOf env ro so) r = some d :=
    dictGet_of_mem_nodup (nodup_keysOf_jsonDataOf env ro so) h
  have hkey : r ∈ keysOf (jsonDataOf env ro so) := List.mem_map.2 ⟨(r, d), h, rfl⟩
  have hrc := (mem_keysOf_jsonDataOf env ro so r).1 hkey
  have hfun := pairsFor_functional env so r (hs r hrc.1)
  rw [dictGet_jsonDataOf env ro so r hfun, if_pos hrc] at hget
  exact ⟨hrc.1, (Option.some.inj hget).symm⟩

/-! ## The claims -/

/-- C2: for every region and list of `n` service identifiers, the fetcher
constructs one parameter-path string per service, partitions the names
into consecutive chunks, and issues exactly `ceil(n/10) = (n+9)/10`
batch-get calls (its `get_parameters` calls, in order, are exactly the
chunks), each of at most 10 names; zero calls when `n = 0`. -/
theorem claim_batch_partitioning (env : Env) (stdin region : String)
    (services : List String) :
    (services.map (parameterName region)).length = services.length ∧
    (chunk10 (services.map (parameterName region))).flatten =
      services.map (parameterName region) ∧
    (get_service_endpoints (okFEnv env stdin) region services initState).1.apiCalls =
      (chunk10 (services.map (parameterName region))).map ApiCall.getParameters ∧
    (chunk10 (services.map (parameterName region))).length = (services.length + 9) / 10 ∧
    (chunk10 (services.map (parameterName region))).all
      (fun b => decide (b.length ≤ 10)) = true := by
  refine ⟨List.length_map _ _, chunk10_flatten _, ?_, ?_, ?_⟩
  · rw [get_service_endpoints_ok]
    simp [initState]
  · rw [chunk10_length, List.length_map]
  · rw [List.all_eq_true]
    intro b hb
    exact decide_eq_true (chunk10_length_le _ b hb)

/-- C3: a non-empty override (for either axis) resolves to exactly the
comma-split list, sorted, verbatim — and the run state is untouched: no
API call is made for that axis (this holds on any environment, even one
whose API would fail). -/
theorem claim_override_resolution (env : FEnv) (region : String) {s t : String}
    (hs : s ≠ "") (ht : t ≠ "") :
    get_regions env (some s) initState =
      (initState, Except.ok (pysorted (pySplit ',' s))) ∧
    get_region_services env (some t) region initState =
      (initState, Except.ok (pysorted (pySplit ',' t))) :=
  ⟨get_regions_override env hs initState,
   get_region_services_override env ht region initState⟩

/-- A fault-free environment over an empty store, used by the concrete
instances below. -/
def fenvW : FEnv := okFEnv ⟨[], fun _ => [], fun _ => none⟩ ""

theorem claim_override_resolution_witness :
    ("b,a" ≠ "") ∧ ("s3,ec2" ≠ "") ∧
    get_regions fenvW (some "b,a") initState =
      (initState, Except.ok (pysorted (pySplit ',' "b,a"))) ∧
    get_region_services fenvW (some "s3,ec2") "us-east-1" initState =
      (initState, Except.ok (pysorted (pySplit ',' "s3,ec2"))) :=
  ⟨by decide, by decide,
   (claim_override_resolution fenvW "us-east-1" (s := "b,a") (t := "s3,ec2")
     (by decide) (by decide)).1,
   (claim_override_resolution fenvW "us-east-1" (s := "b,a") (t := "s3,ec2")
     (by decide) (by decide)).2⟩

/-- A store whose service listing returns the value `"global"`. -/
def env4 : Env :=
  { regionValues := [], serviceValues := fun _ => ["global"], params := fun _ => none }

/-- C4 counterexample: the service listing applies no `"global"` filter —
when a page value is `"global"`, `get_region_services` returns it.  (The
claim asserts both listings exclude the sentinel; only `get_regions`
does.) -/
theorem claim_global_filter_counterexample :
    (get_region_services (okFEnv env4 "") none "r1" initState).2 =
      Except.ok ["global"] := by decide

/-- C4 amended: the region listing excludes the literal `"global"` and is
sorted ascending; the per-region service listing is sorted ascending but
applies no `"global"` exclusion (it returns all page values, sorted). -/
theorem claim_listing_sorted (env : Env) (stdin region : String) :
    ((get_regions (okFEnv env stdin) none initState).2 =
      Except.ok (pysorted (env.regionValues.filter (fun v => v != "global")))) ∧
    ((pysorted (env.regionValues.filter (fun v => v != "global"))).contains "global"
      = false) ∧
    (strSortedB (pysorted (env.regionValues.filter (fun v => v != "global"))) = true) ∧
    ((get_region_services (okFEnv env stdin) none region initState).2 =
      Except.ok (pysorted (env.serviceValues region))) ∧
    (strSortedB (pysorted (env.serviceValues region)) = true) := by
  refine ⟨?_, ?_, strSortedB_pysorted _, ?_, strSortedB_pysorted _⟩
  · rw [get_regions_listing env stdin none rfl initState]
  · have hmem : "global" ∉ pysorted (env.regionValues.filter (fun v => v != "global")) := by
      intro h
      rcases List.mem_filter.1 (mem_pysorted.1 h) with ⟨_, hf⟩
      simp at hf
    simpa using hmem
  · rw [get_region_services_listing env stdin none rfl region initState]

/-- C5: on a fault-free environment the fetcher returns, in order, one
triple per requested parameter that exists: the queried region, the
service derived as the second-to-last `'/'`-segment of the parameter's
`Name`, and the parameter's `Value`; requested names with no parameter
are silently omitted (`filterMap`), not errors. -/
theorem claim_triple_derivation (env : Env) (stdin region : String)
    (services : List String) :
    (get_service_endpoints (okFEnv env stdin) region services initState).2 =
      Except.ok ((services.map (parameterName region)).filterMap
        (fun n => (env.params n).map
          (fun v => (region, secondToLast (pySplit '/' n), v)))) := by
  rw [get_service_endpoints_ok]

/-- A store with one region value, used for the C9 counterexample. -/
def env9 : Env :=
  { regionValues := ["r1"], serviceValues := fun _ => [], params := fun _ => none }

/-- C9 counterexample: `--regions ''` is falsy, so `get_regions` takes the
listing branch (one pagination call, returning the store's regions) — it
does NOT return the comma-split artifact `[""]` the claim predicts. -/
theorem claim_empty_override_counterexample :
    (get_regions (okFEnv env9 "x") (some "") initState).2 = Except.ok ["r1"] ∧
    (get_regions (okFEnv env9 "x") (some "") initState).1.apiCalls =
      [ApiCall.listPath regionsPath] ∧
    (get_regions (okFEnv env9 "x") (some "") initState).2 ≠
      Except.ok (pysorted (pySplit ',' "")) := by decide

/-- C9 amended: an empty-string override is Python-falsy and is treated
exactly as an absent override, by both resolvers and by the whole
program (including the confirmation gate). -/
theorem claim_empty_override_absent (env : FEnv) (region : String) (st : ProgState) :
    get_regions env (some "") st = get_regions env none st ∧
    get_region_services env (some "") region st = get_region_services env none region st ∧
    runProgram env (some "") (some "") = runProgram env none none :=
  ⟨rfl, rfl, rfl⟩

/-- C1: on a fault-free run the only value printed is
`json.dumps(json_data, indent=4)` of the nested dict, whose top-level
keys are exactly the resolved regions with at least one defined endpoint
— without duplicates and in ascending (= insertion) order — and whose
nested keys, per region, are exactly the services whose endpoint
parameter is defined, without duplicates and in ascending order.
(Identifiers are assumed `'/'`-free, as AWS region and service
identifiers are: a `'/'` inside one would change how the parameter path
splits.) -/
theorem claim_output_json_structure (env : Env) (stdin : String) (ro so : Option String)
    (hs : ∀ r ∈ regionsOf env ro, ∀ s ∈ servicesOf env so r,
      s.data.contains '/' = false) :
    (generate_output_json (okFEnv env stdin) ro so initState).2 =
      Except.ok (dumps (jsonDataOf env ro so)) ∧
    (keysOf (jsonDataOf env ro so)).Nodup ∧
    strSortedB (keysOf (jsonDataOf env ro so)) = true ∧
    (∀ r, r ∈ keysOf (jsonDataOf env ro so) ↔
      r ∈ regionsOf env ro ∧ servicesWithEndpoint env so r ≠ []) ∧
    (∀ r d, (r, d) ∈ jsonDataOf env ro so →
      (keysOf d).Nodup ∧ strSortedB (keysOf d) = true ∧
      (∀ s, s ∈ keysOf d ↔ s ∈ servicesWithEndpoint env so r)) := by
  refine ⟨?_, nodup_keysOf_jsonDataOf env ro so, sorted_keysOf_jsonDataOf env ro so,
    ?_, ?_⟩
  · rcases generate_output_json_ok env stdin ro so initState with ⟨st', heq, _, _⟩
    rw [heq]
    rfl
  · intro r
    rw [mem_keysOf_jsonDataOf]
    constructor
    · rintro ⟨hr, hp⟩
      refine ⟨hr, fun hswe => hp ((pairsFor_nil_iff env so r (hs r hr)).2 hswe)⟩
    · rintro ⟨hr, hswe⟩
      refine ⟨hr, fun hp => hswe ((pairsFor_nil_iff env so r (hs r hr)).1 hp)⟩
  · intro r d hmem
    rcases inner_of_mem_jsonDataOf env ro so hs hmem with ⟨hr, rfl⟩
    have hfst := pairsFor_fst env so r (hs r hr)
    have hkeys : keysOf (setAll ([] : List (String × String)) (pairsFor env so r)) =
        addNew [] ((pairsFor env so r).map Prod.fst) := keysOf_setAll [] _
    refine ⟨nodup_keysOf_setAll _ List.nodup_nil, ?_, ?_⟩
    · rw [hkeys, hfst]
      rcases addNew_sublist [] (servicesWithEndpoint env so r) with ⟨l', heq, hsub⟩
      rw [heq, List.nil_append]
      refine strSortedB_of_pairwise (List.Pairwise.sublist hsub ?_)
      exact List.Pairwise.sublist (List.filter_sublist _) (servicesOf_pairwise env so r)
    · intro s
      rw [hkeys, hfst, mem_addNew]
      simp

/-- A store holding exactly the `s3` endpoint of `us-east-1`. -/
def env1 : Env :=
  { regionValues := [], serviceValues := fun _ => [],
    params := fun n =>
      if n = parameterName "us-east-1" "s3"
      then some "s3.us-east-1.amazonaws.com" else none }

theorem claim_output_json_structure_witness :
    (generate_output_json (okFEnv env1 "y") (some "us-east-1") (some "s3,ec2")
        initState).2 =
      Except.ok (dumps (jsonDataOf env1 (some "us-east-1") (some "s3,ec2"))) :=
  (claim_output_json_structure env1 "y" (some "us-east-1") (some "s3,ec2")
    (by decide)).1

/-- C10: for every input — override lists with duplicate regions or
services included — the final `json_data` holds every region key at most
once and, within each region, every service key at most once; and a pair
present in the map always carries the value of an existing endpoint
parameter, so pairs with no defined endpoint are absent rather than
present with an empty value. -/
theorem claim_result_map_unique (env : Env) (ro so : Option String)
    (hs : ∀ r ∈ regionsOf env ro, ∀ s ∈ servicesOf env so r,
      s.data.contains '/' = false) :
    (keysOf (jsonDataOf env ro so)).Nodup ∧
    (∀ r d, (r, d) ∈ jsonDataOf env ro so → (keysOf d).Nodup) ∧
    (∀ r d s e, (r, d) ∈ jsonDataOf env ro so → (s, e) ∈ d →
      env.params (parameterName r s) = some e) := by
  refine ⟨nodup_keysOf_jsonDataOf env ro so, ?_, ?_⟩
  · intro r d hmem
    rcases inner_of_mem_jsonDataOf env ro so hs hmem with ⟨hr, rfl⟩
    exact nodup_keysOf_setAll _ List.nodup_nil
  · intro r d s e hmem hsd
    rcases inner_of_mem_jsonDataOf env ro so hs hmem with ⟨hr, rfl⟩
    rcases mem_setAll hsd with h | h
    · simp at h
    · exact (mem_pairsFor env so r (hs r hr) h).1

/-- A store holding exactly the `s1` endpoint of `r1`, queried below with
duplicated override entries. -/
def env10 : Env :=
  { regionValues := [], serviceValues := fun _ => [],
    params := fun n => if n = parameterName "r1" "s1" then some "e1" else none }

theorem claim_result_map_unique_witness :
    (keysOf (jsonDataOf env10 (some "r1,r1") (some "s1,s1"))).Nodup ∧
    env10.params (parameterName "r1" "s1") = some "e1" :=
  ⟨(claim_result_map_unique env10 (some "r1,r1") (some "s1,s1") (by decide)).1,
   (claim_result_map_unique env10 (some "r1,r1") (some "s1,s1") (by decide)).2.2
     "r1" [("s1", "e1")] "s1" "e1" (by decide) (by decide)⟩

/-- What each handler of source lines 259-266 adds to standard error. -/
def handlerStderr : PyExc → List String
  | PyExc.noCredentials m => [m]
  | PyExc.clientError m => [m]
  | PyExc.keyboardInterrupt => ["User interrupted program"]
  | PyExc.systemExit => []
  | PyExc.other m => [defaultTraceback m]

/-- C6: when the run raises, the process exits with code 1 and the
handler adds exactly its one-line message to standard error — the API's
own message for a client error, the credentials message, the fixed
interruption line; `SystemExit` (whose `quit_error` line is already on
standard error) adds nothing, and any other exception gets the default
traceback.  In every such case nothing is on standard output but (at
most) the two confirmation notices: no partial JSON is emitted. -/
theorem claim_error_taxonomy (env : FEnv) (ro so : Option String) (e : PyExc)
    (h : (pyMain env ro so initState).2 = Except.error e) :
    (runProgram env ro so).2 = 1 ∧
    (runProgram env ro so).1.stderr =
      (pyMain env ro so initState).1.stderr ++ handlerStderr e ∧
    (∀ x ∈ (runProgram env ro so).1.stdout, x = confirmLine1 ∨ x = confirmLine2) := by
  rcases hrun : pyMain env ro so initState with ⟨st', r⟩
  rw [hrun] at h
  cases r with
  | ok u => simp at h
  | error e' =>
    have he : e' = e := by simpa using h
    subst he
    have hout := pyMain_stdout_on_error env ro so hrun
    rw [runProgram.eq_def, hrun]
    cases e' with
    | noCredentials m => exact ⟨rfl, by simp [handlerStderr], hout⟩
    | clientError m => exact ⟨rfl, by simp [handlerStderr], hout⟩
    | keyboardInterrupt => exact ⟨rfl, by simp [handlerStderr], hout⟩
    | systemExit => exact ⟨rfl, by simp [handlerStderr], hout⟩
    | other m => exact ⟨rfl, by simp [handlerStderr], hout⟩

/-- An environment whose batch call raises a client error. -/
def fenvErr : FEnv :=
  { stdin := Except.ok "", regionValues := Except.ok [],
    serviceValues := fun _ => Except.ok [],
    getParameters := fun _ => Except.error (PyExc.clientError "boom") }

theorem claim_error_taxonomy_witness :
    ((pyMain fenvErr (some "r1") (some "s1") initState).2 =
      Except.error (PyExc.clientError "boom")) ∧
    (runProgram fenvErr (some "r1") (some "s1")).2 = 1 ∧
    (runProgram fenvErr (some "r1") (some "s1")).1.stderr =
      (pyMain fenvErr (some "r1") (some "s1") initState).1.stderr ++
        handlerStderr (PyExc.clientError "boom") :=
  ⟨by decide,
   (claim_error_taxonomy fenvErr (some "r1") (some "s1")
     (PyExc.clientError "boom") (by decide)).1,
   (claim_error_taxonomy fenvErr (some "r1") (some "s1")
     (PyExc.clientError "boom") (by decide)).2.1⟩

/-- A fault-free environment over an empty store whose user answers `n`. -/
def env7C : FEnv := okFEnv ⟨[], fun _ => [], fun _ => none⟩ "n"

/-- C7 counterexample: with the override `--regions ''` supplied (and no
services override) the program still prompts — `input()` is read once —
and, the response being `n`, exits 1.  This refutes "supplying either
override skips the prompt entirely": an empty-string override is supplied
yet does not skip the prompt. -/
theorem claim_prompt_counterexample :
    (runProgram env7C (some "") none).1.stdinReads = 1 ∧
    (runProgram env7C (some "") none).2 = 1 := by decide

/-- C7 amended: the program prompts (reads standard input, exactly once)
if and only if both overrides are Python-falsy — absent or the empty
string; a non-empty override on either axis skips the prompt.  When it
prompts and the response does not lower-case to `"y"`, the process exits
1 with no JSON on standard output (only the gate's two notice lines) and
`User aborted program` on standard error. -/
theorem claim_prompt_iff_falsy (env : FEnv) (ro so : Option String) :
    ((runProgram env ro so).1.stdinReads =
      if ((!pyTruthy ro) && !pyTruthy so) = true then 1 else 0) ∧
    (∀ resp : String, env.stdin = Except.ok resp → pyLower resp ≠ "y" →
      pyTruthy ro = false → pyTruthy so = false →
      (runProgram env ro so).2 = 1 ∧
      (runProgram env ro so).1.stdout = [confirmLine1, confirmLine2] ∧
      (runProgram env ro so).1.stderr = [confirmPrompt, "User aborted program"]) := by
  constructor
  · rcases hrun : pyMain env ro so initState with ⟨st', r⟩
    have hrd := pyMain_stdinReads env ro so
    rw [hrun] at hrd
    rw [runProgram.eq_def, hrun]
    cases r with
    | ok u => exact hrd
    | error e' => cases e' <;> exact hrd
  · intro resp hstdin hn hro hso
    have hcond : ((!pyTruthy ro) && !pyTruthy so) = true := by rw [hro, hso]; rfl
    have hconf := confirm_declined env initState hstdin hn
    have hmain : pyMain env ro so initState =
        ({ initState with
            stdout := (initState.stdout ++ [confirmLine1]) ++ [confirmLine2],
            stderr := (initState.stderr ++ [confirmPrompt]) ++ ["User aborted program"],
            stdinReads := initState.stdinReads + 1 }, Except.error PyExc.systemExit) := by
      rw [pyMain]
      dsimp only
      rw [if_pos hcond]
      exact run_bind_error hconf
    rw [runProgram.eq_def, hmain]
    exact ⟨rfl, rfl, rfl⟩

/-- A fault-free environment over an empty store whose user answers `y`. -/
def env8C : FEnv := okFEnv ⟨[], fun _ => [], fun _ => none⟩ "y"

/-- C8: the code bug made concrete.  On a successful no-override run
(user confirms with `y`, empty region listing) the process exits 0 and
standard output carries THREE entries: the two confirmation notice lines
— printed by source lines 21-22, whose `print` calls name no
`file=sys.stderr` — followed by the JSON document.  The spec (and the
explicit `file=sys.stderr` on every other diagnostic print) intends
standard output to carry nothing but the JSON. -/
theorem claim_confirm_notices_on_stdout :
    (runProgram env8C none none).2 = 0 ∧
    (runProgram env8C none none).1.stdout =
      [confirmLine1, confirmLine2, "\x7b\x7d"] := by decide
